import Mathlib

/-!
Shallow embedding of the `LeddooAtomic` cellular-automaton engine
(`src/cells/leddoo/atomic.rs`) and of the chunked-grid module it uses.

The repository ships only `atomic.rs`; the sibling module providing
`CHUNK_SIZE`, `Chunk`, `Chunks`, `index_to_chunk_index`,
`index_to_chunk_offset`, `utils::wrap` and the `Rule` collaborator is
modelled from the specification (spec.md, sections 3, 4.1 and 6).  The
chunk edge length `CHUNK_SIZE` is left as an explicit parameter `cs`,
since the spec fixes only that it is a positive constant.

Machine integers: cell ages (`u8`) are modelled as `Nat`; the only
subtraction the code performs is guarded by `value != 0`, so `Nat`
subtraction is exact there.  The atomic neighbour counter (`AtomicU8`)
wraps on overflow, so its increments and decrements are taken mod 256.
-/

/-- Integer 3-vector, standing in for bevy's `IVec3`. -/
structure IVec3 where
  x : Int
  y : Int
  z : Int
deriving DecidableEq, Repr

instance : Add IVec3 := ⟨fun a b => ⟨a.x + b.x, a.y + b.y, a.z + b.z⟩⟩

instance : Neg IVec3 := ⟨fun a => ⟨-a.x, -a.y, -a.z⟩⟩

/-- Modelled from the spec: `utils::wrap` on one axis, the toroidal wrap
`((p % size) + size) % size` of section 4.1. -/
def wrap1 (p s : Int) : Int := ((p % s) + s) % s

/-- Modelled from the spec: `utils::wrap`, componentwise toroidal wrap into `[0, size)`. -/
def wrap (p : IVec3) (s : Int) : IVec3 := ⟨wrap1 p.x s, wrap1 p.y s, wrap1 p.z s⟩

/-- Modelled from the spec: `CHUNK_CELL_COUNT = CHUNK_SIZE^3`, for chunk edge `cs`. -/
def CHUNK_CELL_COUNT (cs : Nat) : Nat := cs * cs * cs

/-- Modelled from the spec: `index_to_chunk_index`, the chunk ordinal of a flat global index. -/
def index_to_chunk_index (cs : Nat) (index : Nat) : Nat := index / CHUNK_CELL_COUNT cs

/-- Modelled from the spec: `index_to_chunk_offset`, the in-chunk offset of a flat global index. -/
def index_to_chunk_offset (cs : Nat) (index : Nat) : Nat := index % CHUNK_CELL_COUNT cs

namespace Chunk

/-- Modelled from the spec: `Chunk::index_to_pos`, in-chunk offset to local coordinate
(x fastest, then y, then z). -/
def index_to_pos (cs : Nat) (index : Nat) : IVec3 :=
  ⟨((index % cs : Nat) : Int), (((index / cs) % cs : Nat) : Int), ((index / cs / cs : Nat) : Int)⟩

/-- Modelled from the spec: `Chunk::pos_to_index`, local coordinate to in-chunk offset. -/
def pos_to_index (cs : Nat) (pos : IVec3) : Nat :=
  (pos.x + pos.y * (cs : Int) + pos.z * ((cs : Int) * (cs : Int))).toNat

/-- Modelled from the spec: `Chunk::is_border_pos`, true when the local coordinate is
within `radius` cells of any chunk face (section 4.1, `is_border_offset`). -/
def is_border_pos (cs : Nat) (pos : IVec3) (radius : Int) : Bool :=
  decide (pos.x < radius ∨ (cs : Int) - radius ≤ pos.x ∨
          pos.y < radius ∨ (cs : Int) - radius ≤ pos.y ∨
          pos.z < radius ∨ (cs : Int) - radius ≤ pos.z)

end Chunk

/-- One automaton cell: a decaying age (`u8 value`) and a neighbour counter
(`AtomicU8 neighbours`). -/
structure Cell where
  value : Nat
  neighbours : Nat
deriving DecidableEq, Repr

instance : Inhabited Cell := ⟨⟨0, 0⟩⟩

/-- `Cell::is_dead`. -/
def Cell.is_dead (c : Cell) : Bool := c.value == 0

/-- Modelled from the spec: the external `Rule` collaborator, at its interface
boundary (section 6): `bounding_size`, `states`, the birth/survival predicates
(`in_range`), and the neighbour method as its finite list of offset vectors. -/
structure Rule where
  bounding_size : Nat
  states : Nat
  birth_rule : Nat → Bool
  survival_rule : Nat → Bool
  neighbour_offsets : List IVec3

/-- Modelled from the spec: the `Chunks` grid — chunk ordinal and in-chunk offset
to `Cell`.  `Vec<Chunk>` indexing `chunks[c].0[o]` is modelled as function
application `st.chunks c o`; only arguments `c < chunk_count` and
`o < CHUNK_CELL_COUNT cs` correspond to real cells. -/
structure Chunks where
  chunk_radius : Nat
  chunks : Nat → Nat → Cell

namespace Chunks

/-- Modelled from the spec: `chunk_count = chunk_radius^3`. -/
def chunk_count (st : Chunks) : Nat := st.chunk_radius * st.chunk_radius * st.chunk_radius

/-- Modelled from the spec: `Chunks::size`, the domain edge `chunk_radius * CHUNK_SIZE`. -/
def size (cs : Nat) (st : Chunks) : Nat := st.chunk_radius * cs

/-- Modelled from the spec: `Chunks::index_to_pos_ex`, flat global index to global
coordinate, splitting the index into chunk ordinal and in-chunk offset and
linearizing each per axis (x fastest). -/
def index_to_pos_ex (cs : Nat) (index : Nat) (chunk_radius : Nat) : IVec3 :=
  let chunk := index_to_chunk_index cs index
  let off := index_to_chunk_offset cs index
  let lp := Chunk.index_to_pos cs off
  ⟨((chunk % chunk_radius : Nat) : Int) * (cs : Int) + lp.x,
   (((chunk / chunk_radius) % chunk_radius : Nat) : Int) * (cs : Int) + lp.y,
   ((chunk / chunk_radius / chunk_radius : Nat) : Int) * (cs : Int) + lp.z⟩

/-- Modelled from the spec: `Chunks::pos_to_index_ex`, global coordinate (already
wrapped into the domain) to flat global index. -/
def pos_to_index_ex (cs : Nat) (pos : IVec3) (chunk_radius : Nat) : Nat :=
  let x := pos.x.toNat
  let y := pos.y.toNat
  let z := pos.z.toNat
  (x / cs + (y / cs) * chunk_radius + (z / cs) * (chunk_radius * chunk_radius))
      * CHUNK_CELL_COUNT cs
    + (x % cs + (y % cs) * cs + (z % cs) * (cs * cs))

/-- `Chunks::pos_to_index` (instance method, using the grid's own radius). -/
def pos_to_index (cs : Nat) (st : Chunks) (pos : IVec3) : Nat :=
  pos_to_index_ex cs pos st.chunk_radius

/-- `Chunks::index_to_pos` (instance method, using the grid's own radius). -/
def index_to_pos (cs : Nat) (st : Chunks) (index : Nat) : IVec3 :=
  index_to_pos_ex cs index st.chunk_radius

/-- Modelled from the spec: `Chunks::set_size` — reallocate so the domain covers at
least `new_size` per axis, rounded up to a whole number of chunks, discarding all
prior cell state; a call that does not change the chunk radius keeps the grid
(the engine calls this every generation, so an unconditional reallocation would
discard the automaton state each frame).  Returns the new grid and the actual
domain size used. -/
def set_size (cs : Nat) (st : Chunks) (new_size : Nat) : Chunks × Nat :=
  let chunk_radius := (new_size + cs - 1) / cs
  if chunk_radius = st.chunk_radius then (st, size cs st)
  else ({ chunk_radius := chunk_radius, chunks := fun _ _ => default }, chunk_radius * cs)

end Chunks

/-- Point update of a single cell slot of a chunk. -/
def setCell (chunk : Nat → Cell) (o : Nat) (c : Cell) : Nat → Cell :=
  fun o' => if o' = o then c else chunk o'

/-- One `AtomicU8` neighbour-counter step: `fetch_add(1)` / `fetch_sub(1)`
(equivalently the non-atomic `+= 1` / `-= 1` of the interior fast path),
wrapping mod 256 as `u8` arithmetic does. -/
def bumpCounter (inc : Bool) (n : Nat) : Nat :=
  if inc then (n + 1) % 256 else (n + 255) % 256

/-- Apply one neighbour-counter bump at chunk `ci`, offset `o`. -/
def bumpAt (chunks : Nat → Nat → Cell) (ci o : Nat) (inc : Bool) : Nat → Nat → Cell :=
  fun ci' o' =>
    if ci' = ci ∧ o' = o then
      { chunks ci' o' with neighbours := bumpCounter inc (chunks ci' o').neighbours }
    else chunks ci' o'

namespace LeddooAtomic

/-- `LeddooAtomic::update_neighbors`: propagate one spawn (`inc = true`) or death
(`inc = false`) at `offset` of chunk `chunk_index` to the neighbour counters of
all cells reached by the rule's neighbour offsets; border source cells go through
the full wrap-and-global-index path, interior ones through the same-chunk
fast path. -/
def update_neighbors (cs : Nat) (chunks : Nat → Nat → Cell) (chunk_index chunk_radius : Nat)
    (rule : Rule) (offset : Nat) (inc : Bool) : Nat → Nat → Cell :=
  let pos := Chunks.index_to_pos_ex cs (chunk_index * CHUNK_CELL_COUNT cs + offset) chunk_radius
  let lp := Chunk.index_to_pos cs offset
  if Chunk.is_border_pos cs lp 1 then
    rule.neighbour_offsets.foldl (fun chunks dir =>
      let neighbour_pos := wrap (pos + dir) ((chunk_radius * cs : Nat) : Int)
      let index := Chunks.pos_to_index_ex cs neighbour_pos chunk_radius
      bumpAt chunks (index_to_chunk_index cs index) (index_to_chunk_offset cs index) inc) chunks
  else
    rule.neighbour_offsets.foldl (fun chunks dir =>
      let neighbour_pos := lp + dir
      bumpAt chunks chunk_index (Chunk.pos_to_index cs neighbour_pos) inc) chunks

/-- Loop body of `LeddooAtomic::update_values` over the listed in-chunk offsets:
birth for dead cells accepted by the birth rule (recording a spawn), decay for
live cells that are below `states` or fail the survival rule (recording a death
on the first decay step). -/
def update_values_go (rule : Rule) (chunk : Nat → Cell) :
    List Nat → (Nat → Cell) × List Nat × List Nat
  | [] => (chunk, [], [])
  | o :: rest =>
    let cell := chunk o
    if cell.is_dead then
      if rule.birth_rule cell.neighbours then
        let r := update_values_go rule (setCell chunk o { cell with value := rule.states }) rest
        (r.1, o :: r.2.1, r.2.2)
      else
        update_values_go rule chunk rest
    else
      if cell.value < rule.states || !(rule.survival_rule cell.neighbours) then
        let r := update_values_go rule (setCell chunk o { cell with value := cell.value - 1 }) rest
        (r.1, r.2.1, if cell.value = rule.states then o :: r.2.2 else r.2.2)
      else
        update_values_go rule chunk rest

/-- `LeddooAtomic::update_values`: Phase 1 over one chunk, returning the updated
chunk together with its spawn and death offset lists. -/
def update_values (cs : Nat) (rule : Rule) (chunk : Nat → Cell) :
    (Nat → Cell) × List Nat × List Nat :=
  update_values_go rule chunk (List.range (CHUNK_CELL_COUNT cs))

/-- `LeddooAtomic::update`: one generation — `set_size(rule.bounding_size)`, then
Phase 1 (`update_values` per chunk, collecting spawns and deaths), then Phase 2
(`update_neighbors` per chunk for all its spawns, then all its deaths).
The fork/join rounds are deterministic, so the parallel dispatch is modelled by
the corresponding sequential composition in task order. -/
def update (cs : Nat) (rule : Rule) (st : Chunks) : Chunks :=
  let st := (Chunks.set_size cs st rule.bounding_size).1
  let chunk_radius := st.chunk_radius
  let results := fun c => update_values cs rule (st.chunks c)
  let chunks1 : Nat → Nat → Cell := fun c => (results c).1
  let chunks2 := (List.range st.chunk_count).foldl (fun chs chunk_index =>
    let chs := (results chunk_index).2.1.foldl
      (fun chs offset => update_neighbors cs chs chunk_index chunk_radius rule offset true) chs
    (results chunk_index).2.2.foldl
      (fun chs offset => update_neighbors cs chs chunk_index chunk_radius rule offset false) chs)
    chunks1
  { chunk_radius := chunk_radius, chunks := chunks2 }

/-- `LeddooAtomic::validate`, as a boolean: recompute every cell's neighbour count
from scratch (scanning the rule's offsets through the wrap-and-global-index path)
and compare with the maintained counter; `true` iff no assertion would fire. -/
def validate_ok (cs : Nat) (rule : Rule) (st : Chunks) : Bool :=
  (List.range (st.chunk_count * CHUNK_CELL_COUNT cs)).all fun index =>
    let pos := Chunks.index_to_pos cs st index
    let neighbors := rule.neighbour_offsets.foldl (fun n dir =>
      let neighbour_pos := wrap (pos + dir) ((Chunks.size cs st : Nat) : Int)
      let nindex := Chunks.pos_to_index cs st neighbour_pos
      if (st.chunks (index_to_chunk_index cs nindex) (index_to_chunk_offset cs nindex)).value
          = rule.states then n + 1 else n) 0
    neighbors == (st.chunks (index_to_chunk_index cs index) (index_to_chunk_offset cs index)).neighbours

/-- Body of the closure `LeddooAtomic::spawn_noise` passes to the noise generator:
wrap the position into the domain, resolve it to a cell, and if that cell is dead
make it mature and run the Phase 2 spawn propagation for it. -/
def noise_step (cs : Nat) (rule : Rule) (st : Chunks) (pos : IVec3) : Chunks :=
  let index := Chunks.pos_to_index cs st (wrap pos ((Chunks.size cs st : Nat) : Int))
  let chunk := index_to_chunk_index cs index
  let offset := index_to_chunk_offset cs index
  let cell := st.chunks chunk offset
  if cell.is_dead then
    let chunks' := fun c o =>
      if c = chunk ∧ o = offset then { cell with value := rule.states } else st.chunks c o
    { st with chunks := update_neighbors cs chunks' chunk st.chunk_radius rule offset true }
  else st

/-- `LeddooAtomic::spawn_noise`: the externally supplied noise procedure
(`utils::make_some_noise_default`, an external collaborator) is modelled by the
list of positions it produces; each is processed by `noise_step`. -/
def spawn_noise (cs : Nat) (rule : Rule) (st : Chunks) (noise : List IVec3) : Chunks :=
  noise.foldl (noise_step cs rule) st

end LeddooAtomic

/-! Derived notions used to state and prove the claims. -/

/-- Pointwise effect of Phase 1 on a single cell (the body of the
`update_values` loop, without the spawn/death recording). -/
def phase1Cell (rule : Rule) (cell : Cell) : Cell :=
  if cell.is_dead then
    if rule.birth_rule cell.neighbours then { cell with value := rule.states } else cell
  else
    if cell.value < rule.states || !(rule.survival_rule cell.neighbours) then
      { cell with value := cell.value - 1 }
    else cell

/-- Does the `update_values` loop record a spawn for this cell? -/
def spawnPred (rule : Rule) (cell : Cell) : Bool :=
  cell.is_dead && rule.birth_rule cell.neighbours

/-- Does the `update_values` loop record a death for this cell? -/
def deathPred (rule : Rule) (cell : Cell) : Bool :=
  !cell.is_dead && (cell.value == rule.states) && !(rule.survival_rule cell.neighbours)

/-- Wrapped global neighbour index: the cell reached from global flat index `i`
by offset vector `d`, through the wrap-and-global-index path. -/
def gtgt (cs chunk_radius : Nat) (i : Nat) (d : IVec3) : Nat :=
  Chunks.pos_to_index_ex cs
    (wrap (Chunks.index_to_pos_ex cs i chunk_radius + d) ((chunk_radius * cs : Nat) : Int))
    chunk_radius

/-- The (chunk, offset) targets whose neighbour counters one
`update_neighbors` call bumps, branch for branch. -/
def nb_targets (cs : Nat) (chunk_index chunk_radius : Nat) (rule : Rule) (offset : Nat) :
    List (Nat × Nat) :=
  let lp := Chunk.index_to_pos cs offset
  if Chunk.is_border_pos cs lp 1 then
    rule.neighbour_offsets.map (fun dir =>
      let index := gtgt cs chunk_radius (chunk_index * CHUNK_CELL_COUNT cs + offset) dir
      (index_to_chunk_index cs index, index_to_chunk_offset cs index))
  else
    rule.neighbour_offsets.map (fun dir => (chunk_index, Chunk.pos_to_index cs (lp + dir)))

/-- The spawn and death records Phase 1 produces on the grid `s`:
`(chunk, offset, inc)` triples, in the order the Phase 2 tasks are spawned. -/
def gen_records (cs : Nat) (rule : Rule) (s : Chunks) : List (Nat × Nat × Bool) :=
  (List.range s.chunk_count).flatMap fun c =>
    ((LeddooAtomic.update_values cs rule (s.chunks c)).2.1.map fun o => (c, o, true)) ++
    ((LeddooAtomic.update_values cs rule (s.chunks c)).2.2.map fun o => (c, o, false))

/-- The spawn and death records one full generation produces (after its
`set_size` step). -/
def update_records (cs : Nat) (rule : Rule) (st : Chunks) : List (Nat × Nat × Bool) :=
  gen_records cs rule (Chunks.set_size cs st rule.bounding_size).1

/-- Phase 2 effect of a single spawn/death record, as performed by `update`. -/
def apply_record (cs chunk_radius : Nat) (rule : Rule) (chs : Nat → Nat → Cell)
    (r : Nat × Nat × Bool) : Nat → Nat → Cell :=
  LeddooAtomic.update_neighbors cs chs r.1 chunk_radius rule r.2.1 r.2.2

/-- Modelled from the spec (section 8, concurrency equivalence): the counter
update of a single spawn/death record as the sequential reference performs it —
every neighbour is resolved through the wrap-and-global-index path, with no
interior fast path. -/
def seq_record_apply (cs chunk_radius : Nat) (rule : Rule) (chs : Nat → Nat → Cell)
    (r : Nat × Nat × Bool) : Nat → Nat → Cell :=
  rule.neighbour_offsets.foldl (fun chs dir =>
    let index := gtgt cs chunk_radius (r.1 * CHUNK_CELL_COUNT cs + r.2.1) dir
    bumpAt chs (index_to_chunk_index cs index) (index_to_chunk_offset cs index) r.2.2) chs

/-- The (chunk, offset) targets of one spawn/death record as the sequential
reference resolves them: always through the wrap-and-global-index path. -/
def ref_targets (cs chunk_radius : Nat) (rule : Rule) (r : Nat × Nat × Bool) :
    List (Nat × Nat) :=
  rule.neighbour_offsets.map (fun dir =>
    let index := gtgt cs chunk_radius (r.1 * CHUNK_CELL_COUNT cs + r.2.1) dir
    (index_to_chunk_index cs index, index_to_chunk_offset cs index))

/-- Contribution of one spawn/death record to the counter of cell `(c, o)`:
`+1` per target hit for a spawn, `+255 ≡ -1 (mod 256)` per hit for a death. -/
def record_contrib (cs chunk_radius : Nat) (rule : Rule) (r : Nat × Nat × Bool)
    (c o : Nat) : Nat :=
  (if r.2.2 then 1 else 255) * (nb_targets cs r.1 chunk_radius rule r.2.1).count (c, o)

/-- Modelled from the spec (section 8, concurrency equivalence): the sequential
reference implementation — after the same `set_size` step, apply the value-update
rule to every cell of every chunk, then apply the spawn/death counter-updates in
the given `order`. -/
def seq_reference (cs : Nat) (rule : Rule) (st : Chunks) (order : List (Nat × Nat × Bool)) :
    Chunks :=
  let st := (Chunks.set_size cs st rule.bounding_size).1
  { chunk_radius := st.chunk_radius,
    chunks := order.foldl (seq_record_apply cs st.chunk_radius rule)
      (fun c o => phase1Cell rule (st.chunks c o)) }

/-- Number of cells of the grid (`chunk_count * CHUNK_CELL_COUNT`). -/
def total_cells (cs : Nat) (st : Chunks) : Nat := st.chunk_count * CHUNK_CELL_COUNT cs

/-- Global flat indices of the cells Phase 1 spawns on grid `s`, in ascending
order. -/
def spawn_list (cs : Nat) (rule : Rule) (s : Chunks) : List Nat :=
  (List.range (s.chunk_count * CHUNK_CELL_COUNT cs)).filter
    (fun j => spawnPred rule (s.chunks (j / CHUNK_CELL_COUNT cs) (j % CHUNK_CELL_COUNT cs)))

/-- Global flat indices of the cells Phase 1 kills on grid `s`, in ascending
order. -/
def death_list (cs : Nat) (rule : Rule) (s : Chunks) : List Nat :=
  (List.range (s.chunk_count * CHUNK_CELL_COUNT cs)).filter
    (fun j => deathPred rule (s.chunks (j / CHUNK_CELL_COUNT cs) (j % CHUNK_CELL_COUNT cs)))

/-- The independently recomputed neighbour count of the cell at global flat
index `i`: one per offset vector whose wrapped neighbour is mature. -/
def trueCount (cs : Nat) (rule : Rule) (st : Chunks) (i : Nat) : Nat :=
  rule.neighbour_offsets.countP (fun d =>
    let j := gtgt cs st.chunk_radius i d
    (st.chunks (index_to_chunk_index cs j) (index_to_chunk_offset cs j)).value == rule.states)

/-- The neighbour-count invariant: every cell's maintained counter equals its
recomputed neighbour count. -/
def Valid (cs : Nat) (rule : Rule) (st : Chunks) : Prop :=
  ∀ i, i < total_cells cs st →
    (st.chunks (index_to_chunk_index cs i) (index_to_chunk_offset cs i)).neighbours
      = trueCount cs rule st i

/-- The age-range invariant of the data model: every cell's value lies in
`[0, states]`. -/
def AgeOk (rule : Rule) (st : Chunks) : Prop :=
  ∀ c o, (st.chunks c o).value ≤ rule.states

/-- Offset-vector magnitudes bounded by one cell on each axis (soundness
condition (a) of the interior fast path). -/
def OffsetsSmall (rule : Rule) : Prop :=
  ∀ d ∈ rule.neighbour_offsets, d.x.natAbs ≤ 1 ∧ d.y.natAbs ≤ 1 ∧ d.z.natAbs ≤ 1

/-- The neighbourhood is symmetric as a multiset: negating every offset vector
permutes the list (true of the 6/18/26-connectivity variants of section 6). -/
def OffsetsSymm (rule : Rule) : Prop :=
  (rule.neighbour_offsets.map Neg.neg).Perm rule.neighbour_offsets

/-! ### Basic lemmas -/

theorem IVec3.add_def (a b : IVec3) : a + b = ⟨a.x + b.x, a.y + b.y, a.z + b.z⟩ := rfl

theorem IVec3.neg_def (a : IVec3) : -a = ⟨-a.x, -a.y, -a.z⟩ := rfl

theorem setCell_self (chunk : Nat → Cell) (o : Nat) (c : Cell) : setCell chunk o c o = c := by
  simp [setCell]

theorem setCell_ne (chunk : Nat → Cell) (o : Nat) (c : Cell) {o' : Nat} (h : o' ≠ o) :
    setCell chunk o c o' = chunk o' := by
  simp [setCell, h]

/-! ### Phase 1: characterization of `update_values` -/

theorem update_values_go_spec (rule : Rule) (l : List Nat) (hl : l.Nodup) (chunk : Nat → Cell) :
    (∀ o', (LeddooAtomic.update_values_go rule chunk l).1 o'
        = if o' ∈ l then phase1Cell rule (chunk o') else chunk o')
    ∧ (LeddooAtomic.update_values_go rule chunk l).2.1
        = l.filter (fun o => spawnPred rule (chunk o))
    ∧ (LeddooAtomic.update_values_go rule chunk l).2.2
        = l.filter (fun o => deathPred rule (chunk o)) := by
  induction l generalizing chunk with
  | nil => simp [LeddooAtomic.update_values_go]
  | cons o rest ih =>
    have ho : o ∉ rest := (List.nodup_cons.mp hl).1
    have hrest : rest.Nodup := (List.nodup_cons.mp hl).2
    by_cases hd : (chunk o).is_dead
    · by_cases hb : rule.birth_rule (chunk o).neighbours
      · -- dead cell, birth accepted
        have hsp : spawnPred rule (chunk o) = true := by simp [spawnPred, hd, hb]
        have hdp : deathPred rule (chunk o) = false := by simp [deathPred, hd]
        have hph : phase1Cell rule (chunk o) = { chunk o with value := rule.states } := by
          simp [phase1Cell, hd, hb]
        obtain ⟨ihc, ihs, ihd⟩ := ih hrest (setCell chunk o { chunk o with value := rule.states })
        have hagree : ∀ o' ∈ rest,
            setCell chunk o { chunk o with value := rule.states } o' = chunk o' := by
          intro o' h'
          exact setCell_ne _ _ _ (fun e => ho (e ▸ h'))
        refine ⟨?_, ?_, ?_⟩
        · intro o'
          simp only [LeddooAtomic.update_values_go, hd, hb, if_true, Bool.false_eq_true, if_false]
          rw [ihc o']
          by_cases h' : o' = o
          · subst h'
            simp [ho, setCell_self, hph]
          · rw [setCell_ne _ _ _ h']
            by_cases hm : o' ∈ rest
            · simp [hm, h', hagree o' hm]
            · simp [hm, h']
        · simp only [LeddooAtomic.update_values_go, hd, hb, if_true, Bool.false_eq_true, if_false]
          rw [ihs, List.filter_cons, hsp]
          simp only [if_true]
          congr 1
          exact List.filter_congr (fun o' h' => by rw [hagree o' h'])
        · simp only [LeddooAtomic.update_values_go, hd, hb, if_true, Bool.false_eq_true, if_false]
          rw [ihd, List.filter_cons, hdp]
          simp only [Bool.false_eq_true, if_false]
          exact List.filter_congr (fun o' h' => by rw [hagree o' h'])
      · -- dead cell, birth rejected: nothing happens
        have hsp : spawnPred rule (chunk o) = false := by simp [spawnPred, hb]
        have hdp : deathPred rule (chunk o) = false := by simp [deathPred, hd]
        have hph : phase1Cell rule (chunk o) = chunk o := by simp [phase1Cell, hd, hb]
        obtain ⟨ihc, ihs, ihd⟩ := ih hrest chunk
        refine ⟨?_, ?_, ?_⟩
        · intro o'
          simp only [LeddooAtomic.update_values_go, hd, hb, if_true, Bool.false_eq_true, if_false]
          rw [ihc o']
          by_cases h' : o' = o
          · subst h'
            simp [ho, hph]
          · simp [h']
        · simp only [LeddooAtomic.update_values_go, hd, hb, if_true, Bool.false_eq_true, if_false]
          rw [ihs, List.filter_cons, hsp]
          simp
        · simp only [LeddooAtomic.update_values_go, hd, hb, if_true, Bool.false_eq_true, if_false]
          rw [ihd, List.filter_cons, hdp]
          simp
    · by_cases hs : (chunk o).value < rule.states ∨ ¬ rule.survival_rule (chunk o).neighbours
      · -- live cell that decays
        have hcond : ((chunk o).value < rule.states || !(rule.survival_rule (chunk o).neighbours))
            = true := by
          rcases hs with h | h
          · simp [h]
          · simp [h]
        have hsp : spawnPred rule (chunk o) = false := by simp [spawnPred, hd]
        have hph : phase1Cell rule (chunk o) = { chunk o with value := (chunk o).value - 1 } := by
          simp only [phase1Cell, hd, Bool.false_eq_true, if_false, hcond, if_true]
        obtain ⟨ihc, ihs, ihd⟩ := ih hrest (setCell chunk o { chunk o with value := (chunk o).value - 1 })
        have hagree : ∀ o' ∈ rest,
            setCell chunk o { chunk o with value := (chunk o).value - 1 } o' = chunk o' := by
          intro o' h'
          exact setCell_ne _ _ _ (fun e => ho (e ▸ h'))
        have hdeq : deathPred rule (chunk o) = decide ((chunk o).value = rule.states) := by
          by_cases he : (chunk o).value = rule.states
          · have hns : ¬ rule.survival_rule (chunk o).neighbours := by
              rcases hs with h | h
              · omega
              · exact h
            simp [deathPred, hd, he, hns]
          · simp [deathPred, hd, he]
        refine ⟨?_, ?_, ?_⟩
        · intro o'
          simp only [LeddooAtomic.update_values_go, hd, Bool.false_eq_true, if_false, hcond,
            if_true]
          rw [ihc o']
          by_cases h' : o' = o
          · subst h'
            simp [ho, setCell_self, hph]
          · rw [setCell_ne _ _ _ h']
            by_cases hm : o' ∈ rest
            · simp [hm, h', hagree o' hm]
            · simp [hm, h']
        · simp only [LeddooAtomic.update_values_go, hd, Bool.false_eq_true, if_false, hcond,
            if_true]
          rw [ihs, List.filter_cons, hsp]
          simp only [Bool.false_eq_true, if_false]
          exact List.filter_congr (fun o' h' => by rw [hagree o' h'])
        · simp only [LeddooAtomic.update_values_go, hd, Bool.false_eq_true, if_false, hcond,
            if_true]
          have hfilt : List.filter (fun o' => deathPred rule
              (setCell chunk o { chunk o with value := (chunk o).value - 1 } o')) rest
              = List.filter (fun o' => deathPred rule (chunk o')) rest :=
            List.filter_congr (fun o' h' => by rw [hagree o' h'])
          rw [ihd, List.filter_cons, hdeq, hfilt]
          by_cases he : (chunk o).value = rule.states
          · simp [he]
          · simp [he]
      · -- live cell that survives untouched
        have hcond : ((chunk o).value < rule.states || !(rule.survival_rule (chunk o).neighbours))
            = false := by
          push_neg at hs
          simp [hs.1, hs.2, Nat.not_lt.mpr]
        have hsp : spawnPred rule (chunk o) = false := by simp [spawnPred, hd]
        have hdp : deathPred rule (chunk o) = false := by
          push_neg at hs
          simp [deathPred, hs.2]
        have hph : phase1Cell rule (chunk o) = chunk o := by
          simp only [phase1Cell, hd, Bool.false_eq_true, if_false, hcond]
        obtain ⟨ihc, ihs, ihd⟩ := ih hrest chunk
        refine ⟨?_, ?_, ?_⟩
        · intro o'
          simp only [LeddooAtomic.update_values_go, hd, Bool.false_eq_true, if_false, hcond]
          rw [ihc o']
          by_cases h' : o' = o
          · subst h'
            simp [ho, hph]
          · simp [h']
        · simp only [LeddooAtomic.update_values_go, hd, Bool.false_eq_true, if_false, hcond]
          rw [ihs, List.filter_cons, hsp]
          simp
        · simp only [LeddooAtomic.update_values_go, hd, Bool.false_eq_true, if_false, hcond]
          rw [ihd, List.filter_cons, hdp]
          simp

theorem update_values_cells (cs : Nat) (rule : Rule) (chunk : Nat → Cell) (o : Nat) :
    (LeddooAtomic.update_values cs rule chunk).1 o
      = if o < CHUNK_CELL_COUNT cs then phase1Cell rule (chunk o) else chunk o := by
  have h := (update_values_go_spec rule (List.range (CHUNK_CELL_COUNT cs))
    (List.nodup_range _) chunk).1 o
  simpa [LeddooAtomic.update_values, List.mem_range] using h

theorem update_values_spawns (cs : Nat) (rule : Rule) (chunk : Nat → Cell) :
    (LeddooAtomic.update_values cs rule chunk).2.1
      = (List.range (CHUNK_CELL_COUNT cs)).filter (fun o => spawnPred rule (chunk o)) :=
  (update_values_go_spec rule (List.range (CHUNK_CELL_COUNT cs))
    (List.nodup_range _) chunk).2.1

theorem update_values_deaths (cs : Nat) (rule : Rule) (chunk : Nat → Cell) :
    (LeddooAtomic.update_values cs rule chunk).2.2
      = (List.range (CHUNK_CELL_COUNT cs)).filter (fun o => deathPred rule (chunk o)) :=
  (update_values_go_spec rule (List.range (CHUNK_CELL_COUNT cs))
    (List.nodup_range _) chunk).2.2

theorem count_filter_range (n : Nat) (p : Nat → Bool) (o : Nat) :
    ((List.range n).filter p).count o = if o < n ∧ p o then 1 else 0 := by
  by_cases hp : p o
  · rw [List.count_filter hp]
    by_cases ho : o < n
    · simp [ho, hp, List.count_eq_one_of_mem (List.nodup_range n) (List.mem_range.mpr ho)]
    · simp [ho, hp, List.count_eq_zero_of_not_mem (fun h => ho (List.mem_range.mp h))]
  · have hnm : o ∉ (List.range n).filter p := by
      intro h
      exact hp (List.of_mem_filter h)
    simp [List.count_eq_zero_of_not_mem hnm, hp]

theorem phase1Cell_neighbours (rule : Rule) (cell : Cell) :
    (phase1Cell rule cell).neighbours = cell.neighbours := by
  unfold phase1Cell
  split_ifs <;> rfl

theorem phase1Cell_value_le (rule : Rule) (cell : Cell) (h : cell.value ≤ rule.states) :
    (phase1Cell rule cell).value ≤ rule.states := by
  unfold phase1Cell
  split_ifs with h1 h2 h3
  · exact Nat.le_refl _
  · exact h
  · exact le_trans (Nat.sub_le _ _) h
  · exact h

/-! ### Toroidal wrap arithmetic -/

theorem IVec3.eq_iff {a b : IVec3} : a = b ↔ a.x = b.x ∧ a.y = b.y ∧ a.z = b.z := by
  constructor
  · rintro rfl
    exact ⟨rfl, rfl, rfl⟩
  · rintro ⟨h1, h2, h3⟩
    cases a
    cases b
    simp_all

theorem wrap1_eq_emod (p s : Int) : wrap1 p s = p % s := by
  unfold wrap1
  have h : p % s + s = p % s + s * 1 := by ring
  rw [h, Int.add_mul_emod_self_left, Int.emod_emod_of_dvd p dvd_rfl]

theorem wrap1_nonneg (p : Int) {s : Int} (hs : 0 < s) : 0 ≤ wrap1 p s := by
  rw [wrap1_eq_emod]
  exact Int.emod_nonneg p (by omega)

theorem wrap1_lt (p : Int) {s : Int} (hs : 0 < s) : wrap1 p s < s := by
  rw [wrap1_eq_emod]
  exact Int.emod_lt_of_pos p hs

theorem wrap1_eq_self {p s : Int} (h0 : 0 ≤ p) (h1 : p < s) : wrap1 p s = p := by
  rw [wrap1_eq_emod]
  exact Int.emod_eq_of_lt h0 h1

theorem wrap1_shift_mp {s a : Int} (b d : Int) (ha0 : 0 ≤ a) (ha : a < s)
    (h : wrap1 (a + d) s = b) : wrap1 (b - d) s = a := by
  rw [wrap1_eq_emod] at h ⊢
  rw [← h]
  calc ((a + d) % s - d) % s
      = ((a + d) - d) % s := by
        conv_lhs => rw [Int.sub_emod, Int.emod_emod_of_dvd _ dvd_rfl]
        conv_rhs => rw [Int.sub_emod]
    _ = a % s := by ring_nf
    _ = a := Int.emod_eq_of_lt ha0 ha

theorem wrap1_shift {s a b : Int} (ha0 : 0 ≤ a) (ha : a < s) (hb0 : 0 ≤ b) (hb : b < s)
    (d : Int) : wrap1 (a + d) s = b ↔ wrap1 (b - d) s = a := by
  constructor
  · exact wrap1_shift_mp b d ha0 ha
  · intro h
    have h' : wrap1 (b + -d) s = a := by rwa [← Int.sub_eq_add_neg]
    have h2 := wrap1_shift_mp a (-d) hb0 hb h'
    rwa [Int.sub_neg] at h2

/-! ### Digit decomposition for the chunk/offset linearization -/

theorem mixed_div {cs : Nat} (q r : Nat) (hcs : 0 < cs) (hr : r < cs) :
    (q * cs + r) / cs = q := by
  rw [Nat.add_comm, Nat.add_mul_div_right _ _ hcs, Nat.div_eq_of_lt hr, Nat.zero_add]

theorem mixed_mod {cs : Nat} (q r : Nat) (hr : r < cs) : (q * cs + r) % cs = r := by
  rw [Nat.add_comm, Nat.add_mul_mod_self_right, Nat.mod_eq_of_lt hr]

theorem dig3_mod (n a b c : Nat) (ha : a < n) : (a + b * n + c * (n * n)) % n = a := by
  have h : a + b * n + c * (n * n) = a + (b + c * n) * n := by ring
  rw [h, Nat.add_mul_mod_self_right, Nat.mod_eq_of_lt ha]

theorem dig3_div_mod (n a b c : Nat) (hn : 0 < n) (ha : a < n) (hb : b < n) :
    (a + b * n + c * (n * n)) / n % n = b := by
  have h : a + b * n + c * (n * n) = a + (b + c * n) * n := by ring
  rw [h, Nat.add_mul_div_right _ _ hn, Nat.div_eq_of_lt ha, Nat.zero_add,
    Nat.add_mul_mod_self_right, Nat.mod_eq_of_lt hb]

theorem dig3_div_div (n a b c : Nat) (hn : 0 < n) (ha : a < n) (hb : b < n) :
    (a + b * n + c * (n * n)) / n / n = c := by
  have h : a + b * n + c * (n * n) = a + (b + c * n) * n := by ring
  rw [h, Nat.add_mul_div_right _ _ hn, Nat.div_eq_of_lt ha, Nat.zero_add,
    Nat.add_mul_div_right _ _ hn, Nat.div_eq_of_lt hb, Nat.zero_add]

theorem dig3_recompose (n c : Nat) :
    c % n + (c / n % n) * n + (c / n / n) * (n * n) = c := by
  have h1 : c / n % n + c / n / n * n = c / n := Nat.mod_add_div' (c / n) n
  have h2 : c % n + c / n * n = c := Nat.mod_add_div' c n
  nlinarith [h1, h2]

theorem dig3_lt (n a b c : Nat) (ha : a < n) (hb : b < n) (hc : c < n) :
    a + b * n + c * (n * n) < n * n * n := by nlinarith

/-! ### The global index / position bijection -/

theorem index_to_pos_ex_eq (cs R i : Nat) :
    Chunks.index_to_pos_ex cs i R =
      ⟨((i / CHUNK_CELL_COUNT cs % R * cs + i % CHUNK_CELL_COUNT cs % cs : Nat) : Int),
       ((i / CHUNK_CELL_COUNT cs / R % R * cs + i % CHUNK_CELL_COUNT cs / cs % cs : Nat) : Int),
       ((i / CHUNK_CELL_COUNT cs / R / R * cs + i % CHUNK_CELL_COUNT cs / cs / cs : Nat) : Int)⟩ := by
  simp only [Chunks.index_to_pos_ex, Chunk.index_to_pos, index_to_chunk_index,
    index_to_chunk_offset, IVec3.mk.injEq]
  refine ⟨?_, ?_, ?_⟩ <;> push_cast <;> ring

theorem pos_to_index_ex_natCast (cs R a b c : Nat) :
    Chunks.pos_to_index_ex cs ⟨(a : Int), (b : Int), (c : Int)⟩ R
      = (a / cs + b / cs * R + c / cs * (R * R)) * CHUNK_CELL_COUNT cs
        + (a % cs + b % cs * cs + c % cs * (cs * cs)) := by
  simp [Chunks.pos_to_index_ex, Int.toNat_natCast]

theorem wrap_natCast_eq {S a b c : Nat} (ha : a < S) (hb : b < S) (hc : c < S) :
    wrap ⟨(a : Int), (b : Int), (c : Int)⟩ ((S : Nat) : Int) = ⟨(a : Int), (b : Int), (c : Int)⟩ := by
  unfold wrap
  simp only [IVec3.mk.injEq]
  refine ⟨?_, ?_, ?_⟩ <;>
    exact wrap1_eq_self (Int.natCast_nonneg _) (by exact_mod_cast (by assumption))

theorem pos_to_index_ex_index_to_pos_ex (cs R : Nat) (hcs : 0 < cs) (i : Nat) :
    Chunks.pos_to_index_ex cs (Chunks.index_to_pos_ex cs i R) R = i := by
  rw [index_to_pos_ex_eq, pos_to_index_ex_natCast]
  have h1 : ∀ q r : Nat, r < CHUNK_CELL_COUNT cs →
      (q * cs + r % cs) / cs = q ∧ (q * cs + r % cs) % cs = r % cs := by
    intro q r _
    exact ⟨mixed_div q (r % cs) hcs (Nat.mod_lt _ hcs), mixed_mod q (r % cs) (Nat.mod_lt _ hcs)⟩
  have hx := Nat.mod_lt (i % CHUNK_CELL_COUNT cs) hcs
  rw [mixed_div _ _ hcs hx, mixed_mod _ _ hx]
  have hy := Nat.mod_lt (i % CHUNK_CELL_COUNT cs / cs) hcs
  rw [mixed_div _ _ hcs hy, mixed_mod _ _ hy]
  have hz : i % CHUNK_CELL_COUNT cs / cs / cs < cs := by
    have h := Nat.mod_lt i (show 0 < CHUNK_CELL_COUNT cs from
      Nat.mul_pos (Nat.mul_pos hcs hcs) hcs)
    rw [Nat.div_lt_iff_lt_mul hcs, Nat.div_lt_iff_lt_mul hcs]
    calc i % CHUNK_CELL_COUNT cs < CHUNK_CELL_COUNT cs := h
      _ = cs * cs * cs := rfl
  rw [mixed_div _ _ hcs hz, mixed_mod _ _ hz]
  rw [dig3_recompose, dig3_recompose]
  rw [Nat.mul_comm, Nat.div_add_mod]

theorem index_to_pos_ex_bounds (cs R : Nat) {i : Nat}
    (hi : i < R * R * R * CHUNK_CELL_COUNT cs) (hcs : 0 < cs) (hR : 0 < R) :
    (0 ≤ (Chunks.index_to_pos_ex cs i R).x ∧
       (Chunks.index_to_pos_ex cs i R).x < ((R * cs : Nat) : Int)) ∧
    (0 ≤ (Chunks.index_to_pos_ex cs i R).y ∧
       (Chunks.index_to_pos_ex cs i R).y < ((R * cs : Nat) : Int)) ∧
    (0 ≤ (Chunks.index_to_pos_ex cs i R).z ∧
       (Chunks.index_to_pos_ex cs i R).z < ((R * cs : Nat) : Int)) := by
  have hccc : 0 < CHUNK_CELL_COUNT cs := Nat.mul_pos (Nat.mul_pos hcs hcs) hcs
  have hc : i / CHUNK_CELL_COUNT cs < R * R * R := by
    rw [Nat.div_lt_iff_lt_mul hccc]
    calc i < R * R * R * CHUNK_CELL_COUNT cs := hi
      _ = R * R * R * CHUNK_CELL_COUNT cs := rfl
  have ho : i % CHUNK_CELL_COUNT cs < cs * cs * cs := Nat.mod_lt i hccc
  have hcz : i / CHUNK_CELL_COUNT cs / R / R < R := by
    rw [Nat.div_lt_iff_lt_mul hR, Nat.div_lt_iff_lt_mul hR]
    calc i / CHUNK_CELL_COUNT cs < R * R * R := hc
      _ = R * R * R := rfl
  have hoz : i % CHUNK_CELL_COUNT cs / cs / cs < cs := by
    rw [Nat.div_lt_iff_lt_mul hcs, Nat.div_lt_iff_lt_mul hcs]
    exact ho
  have key : ∀ u v : Nat, u < R → v < cs → u * cs + v < R * cs := by
    intro u v hu hv
    calc u * cs + v < u * cs + cs := by omega
      _ = (u + 1) * cs := by ring
      _ ≤ R * cs := Nat.mul_le_mul_right cs hu
  rw [index_to_pos_ex_eq]
  refine ⟨⟨?_, ?_⟩, ⟨?_, ?_⟩, ⟨?_, ?_⟩⟩ <;> dsimp only
  · exact Int.natCast_nonneg _
  · exact_mod_cast key _ _ (Nat.mod_lt _ hR) (Nat.mod_lt _ hcs)
  · exact Int.natCast_nonneg _
  · exact_mod_cast key _ _ (Nat.mod_lt _ hR) (Nat.mod_lt _ hcs)
  · exact Int.natCast_nonneg _
  · exact_mod_cast key _ _ hcz hoz

theorem pos_to_index_ex_lt (cs R : Nat) {p : IVec3}
    (hx0 : 0 ≤ p.x) (hx : p.x < ((R * cs : Nat) : Int))
    (hy0 : 0 ≤ p.y) (hy : p.y < ((R * cs : Nat) : Int))
    (hz0 : 0 ≤ p.z) (hz : p.z < ((R * cs : Nat) : Int)) :
    Chunks.pos_to_index_ex cs p R < R * R * R * CHUNK_CELL_COUNT cs := by
  obtain ⟨px, py, pz⟩ := p
  obtain ⟨a, rfl⟩ : ∃ a : Nat, px = (a : Int) := ⟨px.toNat, (Int.toNat_of_nonneg hx0).symm⟩
  obtain ⟨b, rfl⟩ : ∃ b : Nat, py = (b : Int) := ⟨py.toNat, (Int.toNat_of_nonneg hy0).symm⟩
  obtain ⟨c, rfl⟩ : ∃ c : Nat, pz = (c : Int) := ⟨pz.toNat, (Int.toNat_of_nonneg hz0).symm⟩
  have ha : a < R * cs := by dsimp only at hx; exact_mod_cast hx
  have hb : b < R * cs := by dsimp only at hy; exact_mod_cast hy
  have hc : c < R * cs := by dsimp only at hz; exact_mod_cast hz
  have hRcs : 0 < R * cs := lt_of_le_of_lt (Nat.zero_le a) ha
  have hcs : 0 < cs := Nat.pos_of_ne_zero (by rintro rfl; simp at hRcs)
  have hR : 0 < R := Nat.pos_of_ne_zero (by rintro rfl; simp at hRcs)
  rw [pos_to_index_ex_natCast]
  have hda : a / cs < R := (Nat.div_lt_iff_lt_mul hcs).mpr ha
  have hdb : b / cs < R := (Nat.div_lt_iff_lt_mul hcs).mpr hb
  have hdc : c / cs < R := (Nat.div_lt_iff_lt_mul hcs).mpr hc
  have hCP : a / cs + b / cs * R + c / cs * (R * R) < R * R * R := dig3_lt R _ _ _ hda hdb hdc
  have hLP : a % cs + b % cs * cs + c % cs * (cs * cs) < CHUNK_CELL_COUNT cs :=
    dig3_lt cs _ _ _ (Nat.mod_lt _ hcs) (Nat.mod_lt _ hcs) (Nat.mod_lt _ hcs)
  calc (a / cs + b / cs * R + c / cs * (R * R)) * CHUNK_CELL_COUNT cs
        + (a % cs + b % cs * cs + c % cs * (cs * cs))
      < (a / cs + b / cs * R + c / cs * (R * R)) * CHUNK_CELL_COUNT cs
        + CHUNK_CELL_COUNT cs := by omega
    _ = (a / cs + b / cs * R + c / cs * (R * R) + 1) * CHUNK_CELL_COUNT cs := by ring
    _ ≤ (R * R * R) * CHUNK_CELL_COUNT cs := Nat.mul_le_mul_right _ (by omega)

theorem index_to_pos_ex_pos_to_index_ex (cs R : Nat) {p : IVec3}
    (hx0 : 0 ≤ p.x) (hx : p.x < ((R * cs : Nat) : Int))
    (hy0 : 0 ≤ p.y) (hy : p.y < ((R * cs : Nat) : Int))
    (hz0 : 0 ≤ p.z) (hz : p.z < ((R * cs : Nat) : Int)) :
    Chunks.index_to_pos_ex cs (Chunks.pos_to_index_ex cs p R) R = p := by
  obtain ⟨px, py, pz⟩ := p
  obtain ⟨a, rfl⟩ : ∃ a : Nat, px = (a : Int) := ⟨px.toNat, (Int.toNat_of_nonneg hx0).symm⟩
  obtain ⟨b, rfl⟩ : ∃ b : Nat, py = (b : Int) := ⟨py.toNat, (Int.toNat_of_nonneg hy0).symm⟩
  obtain ⟨c, rfl⟩ : ∃ c : Nat, pz = (c : Int) := ⟨pz.toNat, (Int.toNat_of_nonneg hz0).symm⟩
  have ha : a < R * cs := by dsimp only at hx; exact_mod_cast hx
  have hb : b < R * cs := by dsimp only at hy; exact_mod_cast hy
  have hc : c < R * cs := by dsimp only at hz; exact_mod_cast hz
  have hRcs : 0 < R * cs := lt_of_le_of_lt (Nat.zero_le a) ha
  have hcs : 0 < cs := Nat.pos_of_ne_zero (by rintro rfl; simp at hRcs)
  have hR : 0 < R := Nat.pos_of_ne_zero (by rintro rfl; simp at hRcs)
  have hccc : 0 < CHUNK_CELL_COUNT cs := Nat.mul_pos (Nat.mul_pos hcs hcs) hcs
  have hda : a / cs < R := (Nat.div_lt_iff_lt_mul hcs).mpr ha
  have hdb : b / cs < R := (Nat.div_lt_iff_lt_mul hcs).mpr hb
  have hma : a % cs < cs := Nat.mod_lt _ hcs
  have hmb : b % cs < cs := Nat.mod_lt _ hcs
  have hmc : c % cs < cs := Nat.mod_lt _ hcs
  have hLP : a % cs + b % cs * cs + c % cs * (cs * cs) < CHUNK_CELL_COUNT cs :=
    dig3_lt cs _ _ _ hma hmb hmc
  rw [pos_to_index_ex_natCast, index_to_pos_ex_eq]
  rw [mixed_div _ _ hccc hLP, mixed_mod _ _ hLP]
  rw [dig3_mod R _ _ _ hda, dig3_div_mod R _ _ _ hR hda hdb, dig3_div_div R _ _ _ hR hda hdb]
  rw [dig3_mod cs _ _ _ hma, dig3_div_mod cs _ _ _ hcs hma hmb, dig3_div_div cs _ _ _ hcs hma hmb]
  simp only [IVec3.mk.injEq]
  refine ⟨?_, ?_, ?_⟩ <;> exact_mod_cast Nat.div_add_mod' _ _

theorem chunk_offset_pair_eq (cs : Nat) (t i : Nat)
    (h1 : index_to_chunk_index cs t = index_to_chunk_index cs i)
    (h2 : index_to_chunk_offset cs t = index_to_chunk_offset cs i) : t = i := by
  unfold index_to_chunk_index at h1
  unfold index_to_chunk_offset at h2
  calc t = CHUNK_CELL_COUNT cs * (t / CHUNK_CELL_COUNT cs) + t % CHUNK_CELL_COUNT cs :=
        (Nat.div_add_mod t (CHUNK_CELL_COUNT cs)).symm
    _ = CHUNK_CELL_COUNT cs * (i / CHUNK_CELL_COUNT cs) + i % CHUNK_CELL_COUNT cs := by
        rw [h1, h2]
    _ = i := Nat.div_add_mod i (CHUNK_CELL_COUNT cs)

theorem gtgt_lt (cs R : Nat) (hcs : 0 < cs) (hR : 0 < R) (i : Nat) (d : IVec3) :
    gtgt cs R i d < R * R * R * CHUNK_CELL_COUNT cs := by
  unfold gtgt
  have hS : (0 : Int) < ((R * cs : Nat) : Int) := by exact_mod_cast Nat.mul_pos hR hcs
  exact pos_to_index_ex_lt cs R
    (wrap1_nonneg _ hS) (wrap1_lt _ hS) (wrap1_nonneg _ hS) (wrap1_lt _ hS)
    (wrap1_nonneg _ hS) (wrap1_lt _ hS)

theorem gtgt_wrap_iff (cs R : Nat) (hcs : 0 < cs) (hR : 0 < R) (k l : Nat) (e : IVec3) :
    gtgt cs R k e = l ↔
      wrap (Chunks.index_to_pos_ex cs k R + e) ((R * cs : Nat) : Int)
        = Chunks.index_to_pos_ex cs l R := by
  have hS : (0 : Int) < ((R * cs : Nat) : Int) := by exact_mod_cast Nat.mul_pos hR hcs
  constructor
  · intro h
    have h2 : Chunks.index_to_pos_ex cs (gtgt cs R k e) R = Chunks.index_to_pos_ex cs l R := by
      rw [h]
    unfold gtgt at h2
    rwa [index_to_pos_ex_pos_to_index_ex cs R
      (wrap1_nonneg _ hS) (wrap1_lt _ hS) (wrap1_nonneg _ hS) (wrap1_lt _ hS)
      (wrap1_nonneg _ hS) (wrap1_lt _ hS)] at h2
  · intro h
    unfold gtgt
    rw [h, pos_to_index_ex_index_to_pos_ex cs R hcs]

theorem gtgt_symm (cs R : Nat) (hcs : 0 < cs) (hR : 0 < R) {i j : Nat}
    (hi : i < R * R * R * CHUNK_CELL_COUNT cs) (hj : j < R * R * R * CHUNK_CELL_COUNT cs)
    (d : IVec3) : gtgt cs R i d = j ↔ gtgt cs R j (-d) = i := by
  obtain ⟨⟨hix0, hix⟩, ⟨hiy0, hiy⟩, ⟨hiz0, hiz⟩⟩ := index_to_pos_ex_bounds cs R hi hcs hR
  obtain ⟨⟨hjx0, hjx⟩, ⟨hjy0, hjy⟩, ⟨hjz0, hjz⟩⟩ := index_to_pos_ex_bounds cs R hj hcs hR
  rw [gtgt_wrap_iff cs R hcs hR, gtgt_wrap_iff cs R hcs hR]
  have comp : ∀ (ax bx dx : Int), 0 ≤ ax → ax < ((R * cs : Nat) : Int) →
      0 ≤ bx → bx < ((R * cs : Nat) : Int) →
      (wrap1 (ax + dx) ((R * cs : Nat) : Int) = bx ↔
        wrap1 (bx + -dx) ((R * cs : Nat) : Int) = ax) := by
    intro ax bx dx h1 h2 h3 h4
    rw [← Int.sub_eq_add_neg]
    exact wrap1_shift h1 h2 h3 h4 dx
  rw [IVec3.eq_iff, IVec3.eq_iff]
  simp only [wrap, IVec3.add_def, IVec3.neg_def]
  exact and_congr (comp _ _ _ hix0 hix hjx0 hjx)
    (and_congr (comp _ _ _ hiy0 hiy hjy0 hjy) (comp _ _ _ hiz0 hiz hjz0 hjz))

/-! ### Interior fast-path locality -/

theorem not_border_bounds (cs : Nat) {o : Nat}
    (hb : Chunk.is_border_pos cs (Chunk.index_to_pos cs o) 1 = false) :
    (1 ≤ o % cs ∧ o % cs + 1 < cs) ∧
    (1 ≤ o / cs % cs ∧ o / cs % cs + 1 < cs) ∧
    (1 ≤ o / cs / cs ∧ o / cs / cs + 1 < cs) := by
  unfold Chunk.is_border_pos Chunk.index_to_pos at hb
  simp only [decide_eq_false_iff_not] at hb
  push_neg at hb
  obtain ⟨h1, h2, h3, h4, h5, h6⟩ := hb
  refine ⟨⟨?_, ?_⟩, ⟨?_, ?_⟩, ⟨?_, ?_⟩⟩ <;> omega

theorem pos_to_index_natCast (cs a b c : Nat) :
    Chunk.pos_to_index cs ⟨(a : Int), (b : Int), (c : Int)⟩ = a + b * cs + c * (cs * cs) := by
  unfold Chunk.pos_to_index
  have h : ((a : Int) + (b : Int) * (cs : Int) + (c : Int) * ((cs : Int) * (cs : Int)))
      = ((a + b * cs + c * (cs * cs) : Nat) : Int) := by
    push_cast
    ring
  rw [h, Int.toNat_natCast]

theorem interior_pos_bounds (cs : Nat) {o : Nat} {d : IVec3}
    (hb : Chunk.is_border_pos cs (Chunk.index_to_pos cs o) 1 = false)
    (hd : d.x.natAbs ≤ 1 ∧ d.y.natAbs ≤ 1 ∧ d.z.natAbs ≤ 1) :
    ∃ nx ny nz : Nat, nx < cs ∧ ny < cs ∧ nz < cs ∧
      Chunk.index_to_pos cs o + d = ⟨(nx : Int), (ny : Int), (nz : Int)⟩ ∧
      Chunk.pos_to_index cs (Chunk.index_to_pos cs o + d) = nx + ny * cs + nz * (cs * cs) := by
  obtain ⟨⟨h1, h2⟩, ⟨h3, h4⟩, ⟨h5, h6⟩⟩ := not_border_bounds cs hb
  obtain ⟨hdx, hdy, hdz⟩ := hd
  have hpos : Chunk.index_to_pos cs o + d
      = ⟨(((((o % cs : Nat) : Int) + d.x).toNat : Nat) : Int),
         (((((o / cs % cs : Nat) : Int) + d.y).toNat : Nat) : Int),
         (((((o / cs / cs : Nat) : Int) + d.z).toNat : Nat) : Int)⟩ := by
    rw [IVec3.eq_iff]
    unfold Chunk.index_to_pos
    simp only [IVec3.add_def]
    refine ⟨?_, ?_, ?_⟩ <;> rw [Int.toNat_of_nonneg (by omega)]
  exact ⟨_, _, _, by omega, by omega, by omega, hpos, by rw [hpos, pos_to_index_natCast]⟩

theorem interior_target_eq (cs R : Nat) {ci o : Nat} (hci : ci < R * R * R)
    (ho : o < CHUNK_CELL_COUNT cs) {d : IVec3}
    (hb : Chunk.is_border_pos cs (Chunk.index_to_pos cs o) 1 = false)
    (hd : d.x.natAbs ≤ 1 ∧ d.y.natAbs ≤ 1 ∧ d.z.natAbs ≤ 1) :
    Chunk.pos_to_index cs (Chunk.index_to_pos cs o + d) < CHUNK_CELL_COUNT cs ∧
    gtgt cs R (ci * CHUNK_CELL_COUNT cs + o) d
      = ci * CHUNK_CELL_COUNT cs + Chunk.pos_to_index cs (Chunk.index_to_pos cs o + d) := by
  obtain ⟨⟨hb1, hb2⟩, _, _⟩ := not_border_bounds cs hb
  have hcs : 0 < cs := by omega
  have hR : 0 < R := by
    rcases Nat.eq_zero_or_pos R with h | h
    · subst h
      omega
    · exact h
  have hccc : 0 < CHUNK_CELL_COUNT cs := Nat.mul_pos (Nat.mul_pos hcs hcs) hcs
  obtain ⟨nx, ny, nz, hnx, hny, hnz, hpos, hidx⟩ := interior_pos_bounds cs hb hd
  have hlt : nx + ny * cs + nz * (cs * cs) < CHUNK_CELL_COUNT cs := dig3_lt cs _ _ _ hnx hny hnz
  refine ⟨by rw [hidx]; exact hlt, ?_⟩
  unfold gtgt
  have hdiv : (ci * CHUNK_CELL_COUNT cs + o) / CHUNK_CELL_COUNT cs = ci := mixed_div _ _ hccc ho
  have hmod : (ci * CHUNK_CELL_COUNT cs + o) % CHUNK_CELL_COUNT cs = o := mixed_mod _ _ ho
  rw [index_to_pos_ex_eq, hdiv, hmod]
  -- the shifted position, as a triple of natural coordinates
  have hPd : (⟨((ci % R * cs + o % cs : Nat) : Int),
      ((ci / R % R * cs + o / cs % cs : Nat) : Int),
      ((ci / R / R * cs + o / cs / cs : Nat) : Int)⟩ + d : IVec3)
      = ⟨((ci % R * cs + nx : Nat) : Int), ((ci / R % R * cs + ny : Nat) : Int),
         ((ci / R / R * cs + nz : Nat) : Int)⟩ := by
    rw [IVec3.eq_iff] at hpos ⊢
    unfold Chunk.index_to_pos at hpos
    simp only [IVec3.add_def] at hpos ⊢
    obtain ⟨hpx, hpy, hpz⟩ := hpos
    refine ⟨?_, ?_, ?_⟩
    · rw [Nat.cast_add, Nat.cast_add, add_assoc, hpx]
    · rw [Nat.cast_add, Nat.cast_add, add_assoc, hpy]
    · rw [Nat.cast_add, Nat.cast_add, add_assoc, hpz]
  rw [hPd]
  have hkey : ∀ u v : Nat, u < R → v < cs → u * cs + v < R * cs := by
    intro u v hu hv
    calc u * cs + v < u * cs + cs := by omega
      _ = (u + 1) * cs := by ring
      _ ≤ R * cs := Nat.mul_le_mul_right cs hu
  rw [wrap_natCast_eq (hkey _ _ (Nat.mod_lt _ hR) hnx)
    (hkey _ _ (Nat.mod_lt _ hR) hny) (hkey _ _ ?hz hnz), pos_to_index_ex_natCast]
  case hz =>
    rw [Nat.div_lt_iff_lt_mul hR, Nat.div_lt_iff_lt_mul hR]
    exact hci
  rw [mixed_div _ _ hcs hnx, mixed_mod _ _ hnx, mixed_div _ _ hcs hny, mixed_mod _ _ hny,
    mixed_div _ _ hcs hnz, mixed_mod _ _ hnz, dig3_recompose, hidx]

/-- C3: Birth determinism in Phase 1 — a dead cell whose neighbour count the
birth predicate accepts ends with `value = states` and its offset appears
exactly once in the spawn list; a dead cell whose count the predicate rejects
keeps `value = 0` and appears in neither the spawn nor the death list. -/
theorem C3_birth_determinism (cs : Nat) (rule : Rule) (chunk : Nat → Cell) (o : Nat)
    (ho : o < CHUNK_CELL_COUNT cs) (hdead : (chunk o).value = 0) :
    (rule.birth_rule (chunk o).neighbours = true →
      ((LeddooAtomic.update_values cs rule chunk).1 o).value = rule.states ∧
      (LeddooAtomic.update_values cs rule chunk).2.1.count o = 1) ∧
    (rule.birth_rule (chunk o).neighbours = false →
      ((LeddooAtomic.update_values cs rule chunk).1 o).value = 0 ∧
      (LeddooAtomic.update_values cs rule chunk).2.1.count o = 0 ∧
      (LeddooAtomic.update_values cs rule chunk).2.2.count o = 0) := by
  have hd : (chunk o).is_dead = true := by simp [Cell.is_dead, hdead]
  constructor
  · intro hb
    constructor
    · rw [update_values_cells]
      simp [ho, phase1Cell, hd, hb]
    · rw [update_values_spawns, count_filter_range]
      simp [ho, spawnPred, hd, hb]
  · intro hb
    refine ⟨?_, ?_, ?_⟩
    · rw [update_values_cells]
      simp [ho, phase1Cell, hd, hb, hdead]
    · rw [update_values_spawns, count_filter_range]
      simp [spawnPred, hb]
    · rw [update_values_deaths, count_filter_range]
      simp [deathPred, hd]

/-- C3 witness: a dead cell with 3 mature neighbours under a birth rule accepting 3
spawns exactly once; under a rejecting rule nothing happens. -/
theorem C3_birth_determinism_witness :
    ((LeddooAtomic.update_values 1 ⟨1, 4, fun n => n == 3, fun _ => true, []⟩
        (fun _ => ⟨0, 3⟩)).1 0).value = 4 ∧
    (LeddooAtomic.update_values 1 ⟨1, 4, fun n => n == 3, fun _ => true, []⟩
        (fun _ => ⟨0, 3⟩)).2.1.count 0 = 1 :=
  (C3_birth_determinism 1 ⟨1, 4, fun n => n == 3, fun _ => true, []⟩
    (fun _ => ⟨0, 3⟩) 0 (by decide) rfl).1 rfl

/-- C4: Decay determinism in Phase 1 — a mature cell failing survival decays to
`states - 1` with exactly one death record; a mature cell passing survival is
unchanged and emits nothing; a decaying cell always decrements by exactly 1 and
never reaches the death list. -/
theorem C4_decay_determinism (cs : Nat) (rule : Rule) (chunk : Nat → Cell) (o : Nat)
    (ho : o < CHUNK_CELL_COUNT cs) (hstates : 1 ≤ rule.states) :
    ((chunk o).value = rule.states → rule.survival_rule (chunk o).neighbours = false →
      ((LeddooAtomic.update_values cs rule chunk).1 o).value = rule.states - 1 ∧
      (LeddooAtomic.update_values cs rule chunk).2.2.count o = 1) ∧
    ((chunk o).value = rule.states → rule.survival_rule (chunk o).neighbours = true →
      ((LeddooAtomic.update_values cs rule chunk).1 o).value = rule.states ∧
      (LeddooAtomic.update_values cs rule chunk).2.1.count o = 0 ∧
      (LeddooAtomic.update_values cs rule chunk).2.2.count o = 0) ∧
    (0 < (chunk o).value → (chunk o).value < rule.states →
      ((LeddooAtomic.update_values cs rule chunk).1 o).value = (chunk o).value - 1 ∧
      (LeddooAtomic.update_values cs rule chunk).2.2.count o = 0) := by
  refine ⟨?_, ?_, ?_⟩
  · intro hv hsv
    have hd : (chunk o).is_dead = false := by
      simp [Cell.is_dead]
      omega
    have hcond : ((chunk o).value < rule.states || !(rule.survival_rule (chunk o).neighbours))
        = true := by simp [hsv]
    constructor
    · rw [update_values_cells]
      simp only [ho, if_true, phase1Cell, hd, Bool.false_eq_true, if_false, hcond, if_true]
      simp [hv]
    · rw [update_values_deaths, count_filter_range]
      simp [ho, deathPred, hd, hv, hsv]
  · intro hv hsv
    have hd : (chunk o).is_dead = false := by
      simp [Cell.is_dead]
      omega
    have hcond : ((chunk o).value < rule.states || !(rule.survival_rule (chunk o).neighbours))
        = false := by simp [hsv, hv]
    refine ⟨?_, ?_, ?_⟩
    · rw [update_values_cells]
      simp only [ho, if_true, phase1Cell, hd, Bool.false_eq_true, if_false, hcond]
      exact hv
    · rw [update_values_spawns, count_filter_range]
      simp [spawnPred, hd]
    · rw [update_values_deaths, count_filter_range]
      simp [deathPred, hsv]
  · intro hv0 hvs
    have hd : (chunk o).is_dead = false := by
      simp [Cell.is_dead]
      omega
    have hcond : ((chunk o).value < rule.states || !(rule.survival_rule (chunk o).neighbours))
        = true := by simp [hvs]
    constructor
    · rw [update_values_cells]
      simp only [ho, if_true, phase1Cell, hd, Bool.false_eq_true, if_false, hcond, if_true]
    · rw [update_values_deaths, count_filter_range]
      have : (chunk o).value ≠ rule.states := by omega
      simp [deathPred, this]

/-- C4 witness: with `states = 4`, a mature cell under an always-false survival rule
decays to 3 and records exactly one death. -/
theorem C4_decay_determinism_witness :
    ((LeddooAtomic.update_values 1 ⟨1, 4, fun _ => false, fun _ => false, []⟩
        (fun _ => ⟨4, 0⟩)).1 0).value = 3 ∧
    (LeddooAtomic.update_values 1 ⟨1, 4, fun _ => false, fun _ => false, []⟩
        (fun _ => ⟨4, 0⟩)).2.2.count 0 = 1 :=
  (C4_decay_determinism 1 ⟨1, 4, fun _ => false, fun _ => false, []⟩
    (fun _ => ⟨4, 0⟩) 0 (by decide) (by decide)).1 rfl rfl

/-- C6: Age-range invariant — if every cell's value lies in `[0, states]` before
`update_values`, it still does afterwards (the Phase 1 decrement is only ever
applied to a live cell, so the `u8` age never underflows). -/
theorem C6_age_range (cs : Nat) (rule : Rule) (chunk : Nat → Cell)
    (_hstates : 1 ≤ rule.states)
    (hage : ∀ o, (chunk o).value ≤ rule.states) :
    ∀ o, ((LeddooAtomic.update_values cs rule chunk).1 o).value ≤ rule.states := by
  intro o
  rw [update_values_cells]
  by_cases ho : o < CHUNK_CELL_COUNT cs
  · simp only [ho, if_true]
    exact phase1Cell_value_le rule (chunk o) (hage o)
  · simp only [ho, if_false]
    exact hage o

/-- C6 witness at a concrete chunk whose cells all start at the maximum age. -/
theorem C6_age_range_witness :
    ((LeddooAtomic.update_values 1 ⟨1, 2, fun _ => false, fun _ => false, []⟩
        (fun _ => ⟨2, 0⟩)).1 0).value ≤ 2 :=
  C6_age_range 1 ⟨1, 2, fun _ => false, fun _ => false, []⟩ (fun _ => ⟨2, 0⟩)
    (by decide) (fun _ => Nat.le_refl 2) 0

/-- C7: Phase 1 frame — `update_values` never writes any neighbour counter:
every cell's `neighbours` field is unchanged; only `value` can change. -/
theorem C7_phase1_frame (cs : Nat) (rule : Rule) (chunk : Nat → Cell) (o : Nat) :
    ((LeddooAtomic.update_values cs rule chunk).1 o).neighbours = (chunk o).neighbours := by
  rw [update_values_cells]
  by_cases ho : o < CHUNK_CELL_COUNT cs
  · simp only [ho, if_true]
    exact phase1Cell_neighbours rule (chunk o)
  · simp only [ho, if_false]

/-- C5: Interior fast-path locality — for a source offset whose in-chunk position
is farther than 1 cell from every chunk face and a neighbour offset whose
components have magnitude at most 1, `local + dir` is a valid in-chunk coordinate
(components in `[0, cs)`), so `Chunk::pos_to_index` of it is an in-bounds index
into the same chunk's cell array and the non-atomic branch never indexes out of
bounds. -/
theorem C5_interior_fast_path (cs : Nat) (offset : Nat) (d : IVec3)
    (hb : Chunk.is_border_pos cs (Chunk.index_to_pos cs offset) 1 = false)
    (hd : d.x.natAbs ≤ 1 ∧ d.y.natAbs ≤ 1 ∧ d.z.natAbs ≤ 1) :
    (0 ≤ (Chunk.index_to_pos cs offset + d).x ∧
      (Chunk.index_to_pos cs offset + d).x < (cs : Int)) ∧
    (0 ≤ (Chunk.index_to_pos cs offset + d).y ∧
      (Chunk.index_to_pos cs offset + d).y < (cs : Int)) ∧
    (0 ≤ (Chunk.index_to_pos cs offset + d).z ∧
      (Chunk.index_to_pos cs offset + d).z < (cs : Int)) ∧
    Chunk.pos_to_index cs (Chunk.index_to_pos cs offset + d) < CHUNK_CELL_COUNT cs := by
  obtain ⟨nx, ny, nz, hnx, hny, hnz, hpos, hidx⟩ := interior_pos_bounds cs hb hd
  rw [hpos]
  refine ⟨⟨Int.natCast_nonneg nx, ?_⟩, ⟨Int.natCast_nonneg ny, ?_⟩,
    ⟨Int.natCast_nonneg nz, ?_⟩, ?_⟩
  · exact (show ((nx : Nat) : Int) < (cs : Int) by exact_mod_cast hnx)
  · exact (show ((ny : Nat) : Int) < (cs : Int) by exact_mod_cast hny)
  · exact (show ((nz : Nat) : Int) < (cs : Int) by exact_mod_cast hnz)
  · rw [← hpos, hidx]
    exact dig3_lt cs _ _ _ hnx hny hnz

/-- C5 witness: chunk edge 3, the centre cell `(1,1,1)` (offset 13) with the
neighbour offset `(1,0,0)`. -/
theorem C5_interior_fast_path_witness :
    Chunk.pos_to_index 3 (Chunk.index_to_pos 3 13 + ⟨1, 0, 0⟩) < CHUNK_CELL_COUNT 3 :=
  (C5_interior_fast_path 3 13 ⟨1, 0, 0⟩ (by decide) (by decide)).2.2.2

/-! ### Phase 2: bump machinery -/

theorem bumpAt_self (chunks : Nat → Nat → Cell) (ci o : Nat) (inc : Bool) :
    bumpAt chunks ci o inc ci o
      = { chunks ci o with neighbours := bumpCounter inc (chunks ci o).neighbours } := by
  simp [bumpAt]

theorem bumpAt_other (chunks : Nat → Nat → Cell) (ci o : Nat) (inc : Bool) {c' o' : Nat}
    (h : ¬(c' = ci ∧ o' = o)) : bumpAt chunks ci o inc c' o' = chunks c' o' := by
  simp only [bumpAt, if_neg h]

theorem bumpAt_value (chunks : Nat → Nat → Cell) (ci o : Nat) (inc : Bool) (c' o' : Nat) :
    (bumpAt chunks ci o inc c' o').value = (chunks c' o').value := by
  unfold bumpAt
  split_ifs <;> rfl

theorem bumpAt_local (chunks1 chunks2 : Nat → Nat → Cell) (ci o : Nat) (inc : Bool)
    (c' o' : Nat) (h : chunks1 c' o' = chunks2 c' o') :
    bumpAt chunks1 ci o inc c' o' = bumpAt chunks2 ci o inc c' o' := by
  unfold bumpAt
  split_ifs <;> rw [h]

theorem bumpCounter_comm (i1 i2 : Bool) (n : Nat) :
    bumpCounter i1 (bumpCounter i2 n) = bumpCounter i2 (bumpCounter i1 n) := by
  unfold bumpCounter
  split_ifs <;> simp [Nat.mod_add_mod]

theorem bumpAt_comm (chunks : Nat → Nat → Cell) (c1 o1 : Nat) (i1 : Bool) (c2 o2 : Nat)
    (i2 : Bool) :
    bumpAt (bumpAt chunks c1 o1 i1) c2 o2 i2 = bumpAt (bumpAt chunks c2 o2 i2) c1 o1 i1 := by
  funext c o
  unfold bumpAt
  split_ifs <;> simp_all [bumpCounter_comm]

theorem foldl_bump_not_mem (ts : List (Nat × Nat)) (inc : Bool) (chunks : Nat → Nat → Cell)
    {c o : Nat} (h : (c, o) ∉ ts) :
    ts.foldl (fun chs t => bumpAt chs t.1 t.2 inc) chunks c o = chunks c o := by
  induction ts generalizing chunks with
  | nil => rfl
  | cons t ts ih =>
    have h1 : (c, o) ∉ ts := fun hm => h (List.mem_cons_of_mem t hm)
    have h2 : ¬(c = t.1 ∧ o = t.2) := by
      rintro ⟨rfl, rfl⟩
      exact h (by simp)
    rw [List.foldl_cons, ih _ h1, bumpAt_other _ _ _ _ h2]

theorem foldl_bump_value (ts : List (Nat × Nat)) (inc : Bool) (chunks : Nat → Nat → Cell)
    (c o : Nat) :
    (ts.foldl (fun chs t => bumpAt chs t.1 t.2 inc) chunks c o).value = (chunks c o).value := by
  induction ts generalizing chunks with
  | nil => rfl
  | cons t ts ih => rw [List.foldl_cons, ih, bumpAt_value]

theorem foldl_bump_local (ts : List (Nat × Nat)) (inc : Bool)
    (chunks1 chunks2 : Nat → Nat → Cell) (c o : Nat) (h : chunks1 c o = chunks2 c o) :
    ts.foldl (fun chs t => bumpAt chs t.1 t.2 inc) chunks1 c o
      = ts.foldl (fun chs t => bumpAt chs t.1 t.2 inc) chunks2 c o := by
  induction ts generalizing chunks1 chunks2 with
  | nil => exact h
  | cons t ts ih =>
    rw [List.foldl_cons, List.foldl_cons]
    exact ih _ _ (bumpAt_local _ _ _ _ _ _ _ h)

theorem foldl_bump_neighbours_mem (ts : List (Nat × Nat)) (inc : Bool)
    (chunks : Nat → Nat → Cell) {c o : Nat} (h : (c, o) ∈ ts) :
    (ts.foldl (fun chs t => bumpAt chs t.1 t.2 inc) chunks c o).neighbours
      = ((chunks c o).neighbours + (if inc then 1 else 255) * ts.count (c, o)) % 256 := by
  induction ts generalizing chunks with
  | nil => cases h
  | cons t ts ih =>
    obtain ⟨t1, t2⟩ := t
    rw [List.foldl_cons]
    by_cases hm : (c, o) ∈ ts
    · rw [ih _ hm, List.count_cons]
      by_cases ht : ((c, o) : Nat × Nat) = (t1, t2)
      · have hco : c = t1 ∧ o = t2 := by
          simpa [Prod.mk.injEq] using ht
        obtain ⟨rfl, rfl⟩ := hco
        rw [bumpAt_self]
        simp only [ht, if_pos, beq_self_eq_true, if_true]
        unfold bumpCounter
        split_ifs with hi <;> · rw [Nat.mod_add_mod]
                                congr 1
                                ring
      · have hne : ¬(c = t1 ∧ o = t2) := by
          intro hco
          exact ht (by simp [Prod.mk.injEq, hco.1, hco.2])
        rw [bumpAt_other _ _ _ _ hne]
        have hne' : ¬(t1 = c ∧ t2 = o) := fun hco => hne ⟨hco.1.symm, hco.2.symm⟩
        simp [hne']
    · have ht : ((c, o) : Nat × Nat) = (t1, t2) := by
        rcases List.mem_cons.mp h with h' | h'
        · exact h'
        · exact absurd h' hm
      have hco : c = t1 ∧ o = t2 := by simpa [Prod.mk.injEq] using ht
      obtain ⟨rfl, rfl⟩ := hco
      rw [foldl_bump_not_mem ts inc _ hm, bumpAt_self, List.count_cons,
        List.count_eq_zero_of_not_mem hm]
      simp only [beq_self_eq_true, if_true, Nat.zero_add, Nat.mul_one]
      unfold bumpCounter
      split_ifs <;> rfl

theorem foldl_bump_neighbours_lt (ts : List (Nat × Nat)) (inc : Bool)
    (chunks : Nat → Nat → Cell) (c o : Nat) (hn : (chunks c o).neighbours < 256) :
    (ts.foldl (fun chs t => bumpAt chs t.1 t.2 inc) chunks c o).neighbours
      = ((chunks c o).neighbours + (if inc then 1 else 255) * ts.count (c, o)) % 256 := by
  by_cases h : (c, o) ∈ ts
  · exact foldl_bump_neighbours_mem ts inc chunks h
  · rw [foldl_bump_not_mem ts inc chunks h, List.count_eq_zero_of_not_mem h]
    simp [Nat.mod_eq_of_lt hn]

theorem update_neighbors_eq_targets (cs : Nat) (chunks : Nat → Nat → Cell)
    (ci R : Nat) (rule : Rule) (offset : Nat) (inc : Bool) :
    LeddooAtomic.update_neighbors cs chunks ci R rule offset inc
      = (nb_targets cs ci R rule offset).foldl (fun chs t => bumpAt chs t.1 t.2 inc) chunks := by
  unfold LeddooAtomic.update_neighbors nb_targets gtgt
  dsimp only
  split_ifs with h
  · rw [List.foldl_map]
  · rw [List.foldl_map]

theorem seq_record_apply_eq_targets (cs R : Nat) (rule : Rule) (chs : Nat → Nat → Cell)
    (r : Nat × Nat × Bool) :
    seq_record_apply cs R rule chs r
      = (ref_targets cs R rule r).foldl (fun c t => bumpAt c t.1 t.2 r.2.2) chs := by
  unfold seq_record_apply ref_targets
  dsimp only
  rw [List.foldl_map]

/-! ### Record-level Phase 2 lemmas -/

theorem apply_record_eq_targets (cs R : Nat) (rule : Rule) (chs : Nat → Nat → Cell)
    (r : Nat × Nat × Bool) :
    apply_record cs R rule chs r
      = (nb_targets cs r.1 R rule r.2.1).foldl (fun c t => bumpAt c t.1 t.2 r.2.2) chs :=
  update_neighbors_eq_targets cs chs r.1 R rule r.2.1 r.2.2

theorem apply_record_value (cs R : Nat) (rule : Rule) (chs : Nat → Nat → Cell)
    (r : Nat × Nat × Bool) (c o : Nat) :
    (apply_record cs R rule chs r c o).value = (chs c o).value := by
  rw [apply_record_eq_targets]
  exact foldl_bump_value _ _ _ _ _

theorem apply_record_local (cs R : Nat) (rule : Rule) (chs1 chs2 : Nat → Nat → Cell)
    (r : Nat × Nat × Bool) (c o : Nat) (h : chs1 c o = chs2 c o) :
    apply_record cs R rule chs1 r c o = apply_record cs R rule chs2 r c o := by
  rw [apply_record_eq_targets, apply_record_eq_targets]
  exact foldl_bump_local _ _ _ _ _ _ h

theorem apply_record_neighbours (cs R : Nat) (rule : Rule) (chs : Nat → Nat → Cell)
    (r : Nat × Nat × Bool) (c o : Nat) (hn : (chs c o).neighbours < 256) :
    (apply_record cs R rule chs r c o).neighbours
      = ((chs c o).neighbours + record_contrib cs R rule r c o) % 256 := by
  rw [apply_record_eq_targets]
  exact foldl_bump_neighbours_lt _ _ _ _ _ hn

theorem foldl_records_value (cs R : Nat) (rule : Rule) (recs : List (Nat × Nat × Bool))
    (chs : Nat → Nat → Cell) (c o : Nat) :
    (recs.foldl (apply_record cs R rule) chs c o).value = (chs c o).value := by
  induction recs generalizing chs with
  | nil => rfl
  | cons r recs ih => rw [List.foldl_cons, ih, apply_record_value]

theorem foldl_records_local (cs R : Nat) (rule : Rule) (recs : List (Nat × Nat × Bool))
    (chs1 chs2 : Nat → Nat → Cell) (c o : Nat) (h : chs1 c o = chs2 c o) :
    recs.foldl (apply_record cs R rule) chs1 c o
      = recs.foldl (apply_record cs R rule) chs2 c o := by
  induction recs generalizing chs1 chs2 with
  | nil => exact h
  | cons r recs ih =>
    rw [List.foldl_cons, List.foldl_cons]
    exact ih _ _ (apply_record_local _ _ _ _ _ _ _ _ h)

theorem foldl_records_neighbours (cs R : Nat) (rule : Rule) (recs : List (Nat × Nat × Bool))
    (chs : Nat → Nat → Cell) (c o : Nat) (hn : (chs c o).neighbours < 256) :
    (recs.foldl (apply_record cs R rule) chs c o).neighbours
      = ((chs c o).neighbours + (recs.map (fun r => record_contrib cs R rule r c o)).sum)
          % 256 := by
  induction recs generalizing chs with
  | nil => simp [Nat.mod_eq_of_lt hn]
  | cons r recs ih =>
    rw [List.foldl_cons, List.map_cons, List.sum_cons]
    have h1 : (apply_record cs R rule chs r c o).neighbours
        = ((chs c o).neighbours + record_contrib cs R rule r c o) % 256 :=
      apply_record_neighbours cs R rule chs r c o hn
    have h2 : (apply_record cs R rule chs r c o).neighbours < 256 := by
      rw [h1]
      exact Nat.mod_lt _ (by norm_num)
    rw [ih _ h2, h1, Nat.mod_add_mod]
    congr 1
    ring

/-! ### Commutativity of the counter updates -/

theorem bump_foldl_single_swap (ts : List (Nat × Nat)) (i2 : Bool) (c o : Nat) (i1 : Bool)
    (chs : Nat → Nat → Cell) :
    ts.foldl (fun chs t => bumpAt chs t.1 t.2 i2) (bumpAt chs c o i1)
      = bumpAt (ts.foldl (fun chs t => bumpAt chs t.1 t.2 i2) chs) c o i1 := by
  induction ts generalizing chs with
  | nil => rfl
  | cons t ts ih => rw [List.foldl_cons, List.foldl_cons, bumpAt_comm, ih]

theorem bump_foldl_foldl_swap (ts1 ts2 : List (Nat × Nat)) (i1 i2 : Bool)
    (chs : Nat → Nat → Cell) :
    ts2.foldl (fun c t => bumpAt c t.1 t.2 i2) (ts1.foldl (fun c t => bumpAt c t.1 t.2 i1) chs)
      = ts1.foldl (fun c t => bumpAt c t.1 t.2 i1)
          (ts2.foldl (fun c t => bumpAt c t.1 t.2 i2) chs) := by
  induction ts1 generalizing chs with
  | nil => rfl
  | cons t ts ih => rw [List.foldl_cons, ih, bump_foldl_single_swap, List.foldl_cons]

theorem seq_record_apply_comm (cs R : Nat) (rule : Rule) (chs : Nat → Nat → Cell)
    (r1 r2 : Nat × Nat × Bool) :
    seq_record_apply cs R rule (seq_record_apply cs R rule chs r1) r2
      = seq_record_apply cs R rule (seq_record_apply cs R rule chs r2) r1 := by
  rw [seq_record_apply_eq_targets cs R rule chs r1,
    seq_record_apply_eq_targets cs R rule chs r2,
    seq_record_apply_eq_targets, seq_record_apply_eq_targets]
  exact bump_foldl_foldl_swap _ _ _ _ _

theorem foldl_seq_records_perm (cs R : Nat) (rule : Rule)
    {l1 l2 : List (Nat × Nat × Bool)} (hp : l1.Perm l2) (chs : Nat → Nat → Cell) :
    l1.foldl (seq_record_apply cs R rule) chs = l2.foldl (seq_record_apply cs R rule) chs := by
  haveI : RightCommutative (seq_record_apply cs R rule) :=
    ⟨fun b a1 a2 => seq_record_apply_comm cs R rule b a1 a2⟩
  exact hp.foldl_eq chs

/-- C8: Phase 2 frame — `update_neighbors` leaves every cell's value unchanged,
leaves every cell outside its target set completely unchanged, and changes the
counter of each targeted cell by exactly `+1` (spawn) or `-1` mod 256 (death)
per neighbour-offset vector that reaches it; it returns only the grid, so no
spawn or death record can be produced. -/
theorem C8_phase2_frame (cs : Nat) (chunks : Nat → Nat → Cell) (ci R : Nat) (rule : Rule)
    (offset : Nat) (inc : Bool) :
    (∀ c o, (LeddooAtomic.update_neighbors cs chunks ci R rule offset inc c o).value
        = (chunks c o).value) ∧
    (∀ c o, (c, o) ∉ nb_targets cs ci R rule offset →
      LeddooAtomic.update_neighbors cs chunks ci R rule offset inc c o = chunks c o) ∧
    (∀ c o, (c, o) ∈ nb_targets cs ci R rule offset →
      (LeddooAtomic.update_neighbors cs chunks ci R rule offset inc c o).neighbours
        = ((chunks c o).neighbours
            + (if inc then 1 else 255) * (nb_targets cs ci R rule offset).count (c, o))
              % 256) := by
  refine ⟨?_, ?_, ?_⟩
  · intro c o
    rw [update_neighbors_eq_targets]
    exact foldl_bump_value _ _ _ _ _
  · intro c o h
    rw [update_neighbors_eq_targets]
    exact foldl_bump_not_mem _ _ _ h
  · intro c o h
    rw [update_neighbors_eq_targets]
    exact foldl_bump_neighbours_mem _ _ _ h

/-- C8 witness: one chunk of one cell, neighbourhood `{(0,0,0)}`; the spawn
propagation increments the counter of its single target by 1. -/
theorem C8_phase2_frame_witness :
    ((0, 0) ∈ nb_targets 1 0 1 ⟨1, 1, fun _ => false, fun _ => false, [⟨0, 0, 0⟩]⟩ 0) ∧
    (LeddooAtomic.update_neighbors 1 (fun _ _ => ⟨0, 0⟩) 0 1
        ⟨1, 1, fun _ => false, fun _ => false, [⟨0, 0, 0⟩]⟩ 0 true 0 0).neighbours
      = (((fun _ _ => (⟨0, 0⟩ : Cell)) 0 0).neighbours
          + (if true then 1 else 255)
            * (nb_targets 1 0 1 ⟨1, 1, fun _ => false, fun _ => false, [⟨0, 0, 0⟩]⟩ 0).count
              (0, 0)) % 256 :=
  ⟨by decide,
    (C8_phase2_frame 1 (fun _ _ => ⟨0, 0⟩) 0 1
      ⟨1, 1, fun _ => false, fun _ => false, [⟨0, 0, 0⟩]⟩ 0 true).2.2 0 0 (by decide)⟩

theorem bumpAt_counter_local (chs1 chs2 : Nat → Nat → Cell) (ci o : Nat) (inc : Bool)
    (c' o' : Nat) (h : (chs1 c' o').neighbours = (chs2 c' o').neighbours) :
    (bumpAt chs1 ci o inc c' o').neighbours = (bumpAt chs2 ci o inc c' o').neighbours := by
  unfold bumpAt
  split_ifs <;> simp [h]

theorem foldl_bump_counter_local (ts : List (Nat × Nat)) (inc : Bool)
    (chs1 chs2 : Nat → Nat → Cell) (c o : Nat)
    (h : (chs1 c o).neighbours = (chs2 c o).neighbours) :
    (ts.foldl (fun chs t => bumpAt chs t.1 t.2 inc) chs1 c o).neighbours
      = (ts.foldl (fun chs t => bumpAt chs t.1 t.2 inc) chs2 c o).neighbours := by
  induction ts generalizing chs1 chs2 with
  | nil => exact h
  | cons t ts ih =>
    rw [List.foldl_cons, List.foldl_cons]
    exact ih _ _ (bumpAt_counter_local _ _ _ _ _ _ _ h)

theorem update_neighbors_counter_local (cs : Nat) (chs1 chs2 : Nat → Nat → Cell)
    (ci R : Nat) (rule : Rule) (offset : Nat) (inc : Bool) (c o : Nat)
    (h : (chs1 c o).neighbours = (chs2 c o).neighbours) :
    (LeddooAtomic.update_neighbors cs chs1 ci R rule offset inc c o).neighbours
      = (LeddooAtomic.update_neighbors cs chs2 ci R rule offset inc c o).neighbours := by
  rw [update_neighbors_eq_targets, update_neighbors_eq_targets]
  exact foldl_bump_counter_local _ _ _ _ _ _ h

theorem update_neighbors_value (cs : Nat) (chunks : Nat → Nat → Cell) (ci R : Nat)
    (rule : Rule) (offset : Nat) (inc : Bool) (c o : Nat) :
    (LeddooAtomic.update_neighbors cs chunks ci R rule offset inc c o).value
      = (chunks c o).value := by
  rw [update_neighbors_eq_targets]
  exact foldl_bump_value _ _ _ _ _

/-- C9: `spawn_noise` behaviour — each produced position is wrapped into the
domain and resolved to a cell; `spawn_noise` processes the positions in order;
for a dead cell the step sets the cell's value to the rule's `states` and applies
exactly the Phase 2 spawn counter propagation for that cell (all other values
unchanged); for a live cell the step changes nothing. -/
theorem C9_spawn_noise (cs : Nat) (rule : Rule) (st : Chunks) (pos : IVec3)
    (noise : List IVec3) (index chunk offset : Nat)
    (hindex : index = Chunks.pos_to_index cs st (wrap pos ((Chunks.size cs st : Nat) : Int)))
    (hchunk : chunk = index_to_chunk_index cs index)
    (hoffset : offset = index_to_chunk_offset cs index) :
    (LeddooAtomic.spawn_noise cs rule st (pos :: noise)
      = LeddooAtomic.spawn_noise cs rule (LeddooAtomic.noise_step cs rule st pos) noise) ∧
    ((st.chunks chunk offset).value ≠ 0 → LeddooAtomic.noise_step cs rule st pos = st) ∧
    ((st.chunks chunk offset).value = 0 →
      (LeddooAtomic.noise_step cs rule st pos).chunk_radius = st.chunk_radius ∧
      ((LeddooAtomic.noise_step cs rule st pos).chunks chunk offset).value = rule.states ∧
      (∀ c o, ¬(c = chunk ∧ o = offset) →
        ((LeddooAtomic.noise_step cs rule st pos).chunks c o).value
          = (st.chunks c o).value) ∧
      (∀ c o, ((LeddooAtomic.noise_step cs rule st pos).chunks c o).neighbours
          = (LeddooAtomic.update_neighbors cs st.chunks chunk st.chunk_radius rule offset
              true c o).neighbours)) := by
  subst hindex
  subst hchunk
  subst hoffset
  refine ⟨rfl, ?_, ?_⟩
  · intro h
    have hd : (st.chunks
        (index_to_chunk_index cs
          (Chunks.pos_to_index cs st (wrap pos ((Chunks.size cs st : Nat) : Int))))
        (index_to_chunk_offset cs
          (Chunks.pos_to_index cs st (wrap pos ((Chunks.size cs st : Nat) : Int))))).is_dead
        = false := by
      simp [Cell.is_dead]
      omega
    unfold LeddooAtomic.noise_step
    simp only [hd, Bool.false_eq_true, if_false]
  · intro h
    have hd : (st.chunks
        (index_to_chunk_index cs
          (Chunks.pos_to_index cs st (wrap pos ((Chunks.size cs st : Nat) : Int))))
        (index_to_chunk_offset cs
          (Chunks.pos_to_index cs st (wrap pos ((Chunks.size cs st : Nat) : Int))))).is_dead
        = true := by
      simp [Cell.is_dead, h]
    refine ⟨?_, ?_, ?_, ?_⟩
    · unfold LeddooAtomic.noise_step
      simp only [hd, if_true]
    · unfold LeddooAtomic.noise_step
      simp only [hd, if_true]
      rw [update_neighbors_value]
      simp
    · intro c o hne
      unfold LeddooAtomic.noise_step
      simp only [hd, if_true]
      rw [update_neighbors_value]
      simp only [if_neg hne]
    · intro c o
      unfold LeddooAtomic.noise_step
      simp only [hd, if_true]
      apply update_neighbors_counter_local
      by_cases hco : c = index_to_chunk_index cs
            (Chunks.pos_to_index cs st (wrap pos ((Chunks.size cs st : Nat) : Int)))
          ∧ o = index_to_chunk_offset cs
            (Chunks.pos_to_index cs st (wrap pos ((Chunks.size cs st : Nat) : Int)))
      · obtain ⟨rfl, rfl⟩ := hco
        simp
      · simp only [if_neg hco]

/-- C9 witness: seeding an empty 1-cell grid at the origin makes that cell mature. -/
theorem C9_spawn_noise_witness :
    ((LeddooAtomic.noise_step 1 ⟨1, 2, fun _ => false, fun _ => false, []⟩
        ⟨1, fun _ _ => ⟨0, 0⟩⟩ ⟨0, 0, 0⟩).chunks
      (index_to_chunk_index 1
        (Chunks.pos_to_index 1 ⟨1, fun _ _ => ⟨0, 0⟩⟩
          (wrap ⟨0, 0, 0⟩ ((Chunks.size 1 ⟨1, fun _ _ => ⟨0, 0⟩⟩ : Nat) : Int))))
      (index_to_chunk_offset 1
        (Chunks.pos_to_index 1 ⟨1, fun _ _ => ⟨0, 0⟩⟩
          (wrap ⟨0, 0, 0⟩ ((Chunks.size 1 ⟨1, fun _ _ => ⟨0, 0⟩⟩ : Nat) : Int))))).value = 2 :=
  ((C9_spawn_noise 1 ⟨1, 2, fun _ => false, fun _ => false, []⟩ ⟨1, fun _ _ => ⟨0, 0⟩⟩
      ⟨0, 0, 0⟩ [] _ _ _ rfl rfl rfl).2.2 rfl).2.1

/-! ### `set_size` -/

theorem set_size_fst_radius (cs : Nat) (st : Chunks) (n : Nat) :
    (Chunks.set_size cs st n).1.chunk_radius = (n + cs - 1) / cs := by
  unfold Chunks.set_size
  dsimp only
  split_ifs with h
  · exact h.symm
  · rfl

theorem set_size_snd (cs : Nat) (st : Chunks) (n : Nat) :
    (Chunks.set_size cs st n).2 = ((n + cs - 1) / cs) * cs := by
  unfold Chunks.set_size Chunks.size
  dsimp only
  split_ifs with h
  · rw [h]
  · rfl

theorem set_size_keep (cs : Nat) (st : Chunks) (n : Nat)
    (h : (n + cs - 1) / cs = st.chunk_radius) : (Chunks.set_size cs st n).1 = st := by
  unfold Chunks.set_size
  dsimp only
  rw [if_pos h]

theorem set_size_new (cs : Nat) (st : Chunks) (n : Nat)
    (h : (n + cs - 1) / cs ≠ st.chunk_radius) :
    (Chunks.set_size cs st n).1
      = { chunk_radius := (n + cs - 1) / cs, chunks := fun _ _ => default } := by
  unfold Chunks.set_size
  dsimp only
  rw [if_neg h]

/-- C10 counterexample: chunk edge 3, a one-chunk grid of domain size 3 whose
cells are alive at age 2, and a rule with `bounding_size = 2`.  The bounding size
does not match the current domain size, yet `set_size` (and hence `update`)
leaves the prior cell state in place, because 2 rounds up to the same single
chunk: the cell decays from age 2 to age 1 instead of being discarded, while a
cleared grid would end the generation dead. -/
theorem C10_counterexample :
    (⟨2, 5, fun _ => false, fun _ => true, []⟩ : Rule).bounding_size
        ≠ Chunks.size 3 ⟨1, fun _ _ => ⟨2, 0⟩⟩ ∧
    (Chunks.set_size 3 ⟨1, fun _ _ => ⟨2, 0⟩⟩
        (⟨2, 5, fun _ => false, fun _ => true, []⟩ : Rule).bounding_size).1.chunks 0 0
      = ⟨2, 0⟩ ∧
    ((LeddooAtomic.update 3 ⟨2, 5, fun _ => false, fun _ => true, []⟩
        ⟨1, fun _ _ => ⟨2, 0⟩⟩).chunks 0 0).value = 1 ∧
    ((LeddooAtomic.update 3 ⟨2, 5, fun _ => false, fun _ => true, []⟩
        ⟨1, fun _ _ => default⟩).chunks 0 0).value = 0 := by
  refine ⟨by decide, ?_, by decide, by decide⟩
  have h : (2 + 3 - 1) / 3 = (⟨1, fun _ _ => (⟨2, 0⟩ : Cell)⟩ : Chunks).chunk_radius := by
    decide
  rw [set_size_keep 3 _ 2 h]

/-- C10 (amended): every `update` begins with `set_size(rule.bounding_size)`, so
the domain size after `update` equals the effective size `set_size` returns for
`rule.bounding_size`; the resize is destructive — `update` behaves as if started
from a freshly cleared grid — exactly when the effective chunk radius
`(bounding_size + cs - 1) / cs` differs from the current chunk radius (a
`bounding_size` that rounds up to the current radius keeps all cell state even
when it differs from the current domain size). -/
theorem C10_amended_resize (cs : Nat) (rule : Rule) (st : Chunks) :
    Chunks.size cs (LeddooAtomic.update cs rule st)
        = (Chunks.set_size cs st rule.bounding_size).2 ∧
    ((rule.bounding_size + cs - 1) / cs ≠ st.chunk_radius →
      LeddooAtomic.update cs rule st
        = LeddooAtomic.update cs rule
            { chunk_radius := (rule.bounding_size + cs - 1) / cs,
              chunks := fun _ _ => default }) := by
  constructor
  · have hrad : (LeddooAtomic.update cs rule st).chunk_radius
        = (Chunks.set_size cs st rule.bounding_size).1.chunk_radius := rfl
    unfold Chunks.size
    rw [hrad, set_size_fst_radius, set_size_snd]
  · intro h
    have e1 : (Chunks.set_size cs st rule.bounding_size).1
        = { chunk_radius := (rule.bounding_size + cs - 1) / cs,
            chunks := fun _ _ => default } := set_size_new cs st _ h
    have e2 : (Chunks.set_size cs
        ({ chunk_radius := (rule.bounding_size + cs - 1) / cs,
           chunks := fun _ _ => default } : Chunks) rule.bounding_size).1
        = { chunk_radius := (rule.bounding_size + cs - 1) / cs,
            chunks := fun _ _ => default } := set_size_keep cs _ _ rfl
    show LeddooAtomic.update cs rule st = _
    unfold LeddooAtomic.update
    rw [e1, e2]

/-- C10 amended witness: shrinking a radius-2 grid to bounding size 1 with chunk
edge 1 resizes destructively, so updating it is the same as updating a cleared
one-chunk grid. -/
theorem C10_amended_resize_witness :
    LeddooAtomic.update 1 ⟨1, 1, fun _ => false, fun _ => false, []⟩
        ⟨2, fun _ _ => ⟨1, 0⟩⟩
      = LeddooAtomic.update 1 ⟨1, 1, fun _ => false, fun _ => false, []⟩
          { chunk_radius := (1 + 1 - 1) / 1, chunks := fun _ _ => default } :=
  (C10_amended_resize 1 ⟨1, 1, fun _ => false, fun _ => false, []⟩
    ⟨2, fun _ _ => ⟨1, 0⟩⟩).2 (by decide)

/-! ### Decomposing `update` into spawn/death records -/

theorem foldl_flatMap {α β γ : Type} (g : α → List β) (f : γ → β → γ) (l : List α)
    (init : γ) :
    (l.flatMap g).foldl f init = l.foldl (fun acc a => (g a).foldl f acc) init := by
  induction l generalizing init with
  | nil => rfl
  | cons a l ih => rw [List.flatMap_cons, List.foldl_append, ih, List.foldl_cons]

theorem foldl_ext {α β : Type} {f g : β → α → β} (h : ∀ acc a, f acc a = g acc a)
    (l : List α) (init : β) : l.foldl f init = l.foldl g init := by
  induction l generalizing init with
  | nil => rfl
  | cons a l ih => rw [List.foldl_cons, List.foldl_cons, h, ih]

theorem foldl_ext_mem {α β : Type} {f g : β → α → β} (l : List α)
    (h : ∀ acc, ∀ a ∈ l, f acc a = g acc a) (init : β) :
    l.foldl f init = l.foldl g init := by
  induction l generalizing init with
  | nil => rfl
  | cons a l ih =>
    rw [List.foldl_cons, List.foldl_cons, h init a (List.mem_cons_self a l)]
    exact ih (fun acc b hb => h acc b (List.mem_cons_of_mem a hb)) _

theorem update_eq_records (cs : Nat) (rule : Rule) (st : Chunks) :
    LeddooAtomic.update cs rule st
      = { chunk_radius := (Chunks.set_size cs st rule.bounding_size).1.chunk_radius,
          chunks := (update_records cs rule st).foldl
            (apply_record cs (Chunks.set_size cs st rule.bounding_size).1.chunk_radius rule)
            (fun c o => (LeddooAtomic.update_values cs rule
              ((Chunks.set_size cs st rule.bounding_size).1.chunks c)).1 o) } := by
  unfold LeddooAtomic.update update_records gen_records
  dsimp only
  congr 1
  rw [foldl_flatMap]
  refine foldl_ext (fun chs c => ?_) _ _
  rw [List.foldl_append, List.foldl_map, List.foldl_map]
  rfl

theorem update_records_mem (cs : Nat) (rule : Rule) (st : Chunks) {r : Nat × Nat × Bool}
    (h : r ∈ update_records cs rule st) :
    r.1 < (Chunks.set_size cs st rule.bounding_size).1.chunk_radius
            * (Chunks.set_size cs st rule.bounding_size).1.chunk_radius
            * (Chunks.set_size cs st rule.bounding_size).1.chunk_radius
      ∧ r.2.1 < CHUNK_CELL_COUNT cs := by
  unfold update_records gen_records at h
  rw [List.mem_flatMap] at h
  obtain ⟨c, hc, hr⟩ := h
  rw [List.mem_range] at hc
  have hc' : c < (Chunks.set_size cs st rule.bounding_size).1.chunk_radius
      * (Chunks.set_size cs st rule.bounding_size).1.chunk_radius
      * (Chunks.set_size cs st rule.bounding_size).1.chunk_radius := hc
  rcases List.mem_append.mp hr with h' | h'
  · obtain ⟨o, ho, rfl⟩ := List.mem_map.mp h'
    rw [update_values_spawns] at ho
    have := (List.mem_filter.mp ho).1
    rw [List.mem_range] at this
    exact ⟨hc', this⟩
  · obtain ⟨o, ho, rfl⟩ := List.mem_map.mp h'
    rw [update_values_deaths] at ho
    have := (List.mem_filter.mp ho).1
    rw [List.mem_range] at this
    exact ⟨hc', this⟩

theorem nb_targets_eq_ref (cs R : Nat) (rule : Rule) {ci o : Nat} (hci : ci < R * R * R)
    (ho : o < CHUNK_CELL_COUNT cs) (hsmall : OffsetsSmall rule) (b : Bool) :
    nb_targets cs ci R rule o = ref_targets cs R rule (ci, o, b) := by
  unfold nb_targets ref_targets
  dsimp only
  split_ifs with h
  · rfl
  · rw [Bool.not_eq_true] at h
    refine List.map_congr_left (fun dir hdir => ?_)
    obtain ⟨hlt, heq⟩ := interior_target_eq cs R hci ho h (hsmall dir hdir)
    have hccc : 0 < CHUNK_CELL_COUNT cs := Nat.lt_of_le_of_lt (Nat.zero_le o) ho
    rw [heq]
    unfold index_to_chunk_index index_to_chunk_offset
    rw [mixed_div _ _ hccc hlt, mixed_mod _ _ hlt]

theorem apply_record_eq_seq (cs R : Nat) (rule : Rule) (chs : Nat → Nat → Cell)
    {r : Nat × Nat × Bool} (hci : r.1 < R * R * R) (ho : r.2.1 < CHUNK_CELL_COUNT cs)
    (hsmall : OffsetsSmall rule) :
    apply_record cs R rule chs r = seq_record_apply cs R rule chs r := by
  rw [apply_record_eq_targets, seq_record_apply_eq_targets,
    nb_targets_eq_ref cs R rule hci ho hsmall r.2.2]

/-- C2: Concurrency (refinement) equivalence — for every starting grid and every
rule whose neighbour-offset magnitudes are bounded by one cell, the two-phase
update performed by `update` produces, for every cell, exactly the same value and
neighbour counter as the sequential reference implementation that applies the
value-update rule to every cell and then applies the recorded spawn and death
counter-updates in any order. -/
theorem C2_parallel_equals_sequential (cs : Nat) (rule : Rule) (st : Chunks)
    (hsmall : OffsetsSmall rule) (order : List (Nat × Nat × Bool))
    (hperm : order.Perm (update_records cs rule st)) :
    (seq_reference cs rule st order).chunk_radius
        = (LeddooAtomic.update cs rule st).chunk_radius ∧
    ∀ c o, o < CHUNK_CELL_COUNT cs →
      (seq_reference cs rule st order).chunks c o
        = (LeddooAtomic.update cs rule st).chunks c o := by
  have hrad : (seq_reference cs rule st order).chunk_radius
      = (Chunks.set_size cs st rule.bounding_size).1.chunk_radius := rfl
  have hseq : (seq_reference cs rule st order).chunks
      = order.foldl
          (seq_record_apply cs (Chunks.set_size cs st rule.bounding_size).1.chunk_radius rule)
          (fun c o => phase1Cell rule
            ((Chunks.set_size cs st rule.bounding_size).1.chunks c o)) := rfl
  rw [update_eq_records]
  constructor
  · exact hrad
  · intro c o ho
    have hcongr : (update_records cs rule st).foldl
        (seq_record_apply cs (Chunks.set_size cs st rule.bounding_size).1.chunk_radius rule)
        (fun c o => phase1Cell rule
          ((Chunks.set_size cs st rule.bounding_size).1.chunks c o))
        = (update_records cs rule st).foldl
          (apply_record cs (Chunks.set_size cs st rule.bounding_size).1.chunk_radius rule)
          (fun c o => phase1Cell rule
            ((Chunks.set_size cs st rule.bounding_size).1.chunks c o)) :=
      foldl_ext_mem _ (fun acc r hr => by
        obtain ⟨h1, h2⟩ := update_records_mem cs rule st hr
        exact (apply_record_eq_seq cs _ rule acc h1 h2 hsmall).symm) _
    rw [hseq, foldl_seq_records_perm cs _ rule hperm, hcongr]
    exact foldl_records_local _ _ _ _ _ _ c o (by
      rw [update_values_cells]
      simp [ho])

/-- C2 witness: a 1-cell grid whose cell is mature under an always-false survival
rule; applying the recorded death in the canonical order reproduces the parallel
update exactly. -/
theorem C2_parallel_equals_sequential_witness :
    (seq_reference 1 ⟨1, 1, fun _ => false, fun _ => false, [⟨0, 0, 0⟩]⟩
        ⟨1, fun _ _ => ⟨1, 1⟩⟩
        (update_records 1 ⟨1, 1, fun _ => false, fun _ => false, [⟨0, 0, 0⟩]⟩
          ⟨1, fun _ _ => ⟨1, 1⟩⟩)).chunks 0 0
      = (LeddooAtomic.update 1 ⟨1, 1, fun _ => false, fun _ => false, [⟨0, 0, 0⟩]⟩
          ⟨1, fun _ _ => ⟨1, 1⟩⟩).chunks 0 0 :=
  (C2_parallel_equals_sequential 1 ⟨1, 1, fun _ => false, fun _ => false, [⟨0, 0, 0⟩]⟩
    ⟨1, fun _ _ => ⟨1, 1⟩⟩
    (by
      intro d hd
      rw [List.mem_singleton] at hd
      subst hd
      decide) _ (List.Perm.refl _)).2 0 0 (by decide)

/-! ### Counting infrastructure for the neighbour-count invariant -/

theorem beq_eq_decide_nat (x y : Nat) : (x == y) = decide (x = y) := by
  by_cases h : x = y
  · subst h
    simp
  · simp [h]

theorem foldl_count_eq_countP {α : Type} (p : α → Bool) (l : List α) (n0 : Nat) :
    l.foldl (fun n a => if p a then n + 1 else n) n0 = n0 + l.countP p := by
  induction l generalizing n0 with
  | nil => simp
  | cons a l ih =>
    rw [List.foldl_cons, List.countP_cons]
    by_cases h : p a
    · rw [if_pos h, if_pos h, ih]
      omega
    · rw [if_neg h, if_neg h, ih]
      omega

theorem countP_add_disjoint {α : Type} (p q : α → Bool) (l : List α)
    (h : ∀ a ∈ l, ¬(p a = true ∧ q a = true)) :
    l.countP p + l.countP q = l.countP (fun a => p a || q a) := by
  induction l with
  | nil => simp
  | cons a l ih =>
    rw [List.countP_cons, List.countP_cons, List.countP_cons,
      ← ih (fun b hb => h b (List.mem_cons_of_mem a hb))]
    have := h a (List.mem_cons_self a l)
    by_cases hp : p a <;> by_cases hq : q a <;> simp_all <;> omega

theorem sum_countP_mem (S : List Nat) (hS : S.Nodup) {α : Type} (l : List α) (f : α → Nat) :
    (S.map (fun j => l.countP (fun d => decide (f d = j)))).sum
      = l.countP (fun d => decide (f d ∈ S)) := by
  induction S with
  | nil => simp
  | cons j S ih =>
    obtain ⟨hj, hS'⟩ := List.nodup_cons.mp hS
    rw [List.map_cons, List.sum_cons, ih hS']
    rw [countP_add_disjoint _ _ l (fun a _ hpq => by
      have h1 : f a = j := of_decide_eq_true hpq.1
      have h2 : f a ∈ S := of_decide_eq_true hpq.2
      exact hj (h1 ▸ h2))]
    refine List.countP_congr (fun a _ => ?_)
    by_cases h1 : f a = j <;> by_cases h2 : f a ∈ S <;>
      simp [h1, h2, List.mem_cons]

theorem sum_map_flatMap {α β : Type} (g : α → List β) (f : β → Nat) (l : List α) :
    ((l.flatMap g).map f).sum = (l.map (fun a => ((g a).map f).sum)).sum := by
  induction l with
  | nil => rfl
  | cons a l ih => rw [List.flatMap_cons, List.map_append, List.sum_append, ih,
      List.map_cons, List.sum_cons]

theorem flatMap_filter_range (M B : Nat) (p : Nat → Nat → Bool) :
    (List.range M).flatMap
        (fun cc => ((List.range B).filter (p cc)).map (fun o => cc * B + o))
      = (List.range (M * B)).filter (fun j => p (j / B) (j % B)) := by
  induction M with
  | zero => simp
  | succ M ih =>
    rw [List.range_succ, List.flatMap_append, ih, List.flatMap_cons, List.flatMap_nil,
      List.append_nil]
    have hr : List.range ((M + 1) * B) = List.range (M * B)
        ++ (List.range B).map (fun o => M * B + o) := by
      rw [Nat.succ_mul]
      exact List.range_add (M * B) B
    rw [hr, List.filter_append]
    congr 1
    rw [List.filter_map]
    congr 1
    refine List.filter_congr (fun o ho => ?_)
    rw [List.mem_range] at ho
    have hB : 0 < B := Nat.lt_of_le_of_lt (Nat.zero_le o) ho
    simp only [Function.comp]
    rw [mixed_div _ _ hB ho, mixed_mod _ _ ho]

theorem validate_body_count (cs : Nat) (rule : Rule) (st : Chunks) (index : Nat) :
    rule.neighbour_offsets.foldl (fun n dir =>
      let neighbour_pos := wrap (Chunks.index_to_pos cs st index + dir)
        ((Chunks.size cs st : Nat) : Int)
      let nindex := Chunks.pos_to_index cs st neighbour_pos
      if (st.chunks (index_to_chunk_index cs nindex) (index_to_chunk_offset cs nindex)).value
          = rule.states then n + 1 else n) 0
      = trueCount cs rule st index := by
  unfold trueCount
  have h := foldl_count_eq_countP (fun dir =>
    decide ((st.chunks
      (index_to_chunk_index cs (gtgt cs st.chunk_radius index dir))
      (index_to_chunk_offset cs (gtgt cs st.chunk_radius index dir))).value
        = rule.states)) rule.neighbour_offsets 0
  rw [Nat.zero_add] at h
  rw [show (rule.neighbour_offsets.foldl (fun n dir =>
      let neighbour_pos := wrap (Chunks.index_to_pos cs st index + dir)
        ((Chunks.size cs st : Nat) : Int)
      let nindex := Chunks.pos_to_index cs st neighbour_pos
      if (st.chunks (index_to_chunk_index cs nindex) (index_to_chunk_offset cs nindex)).value
          = rule.states then n + 1 else n) 0)
    = rule.neighbour_offsets.foldl (fun n dir =>
      if decide ((st.chunks
          (index_to_chunk_index cs (gtgt cs st.chunk_radius index dir))
          (index_to_chunk_offset cs (gtgt cs st.chunk_radius index dir))).value
            = rule.states) = true then n + 1 else n) 0 from by
    refine foldl_ext (fun n dir => ?_) _ _
    simp only [decide_eq_true_eq]
    rfl]
  rw [h]
  refine List.countP_congr (fun dir _ => ?_)
  rw [beq_eq_decide_nat]

theorem validate_ok_iff (cs : Nat) (rule : Rule) (st : Chunks) :
    LeddooAtomic.validate_ok cs rule st = true ↔ Valid cs rule st := by
  unfold LeddooAtomic.validate_ok Valid total_cells
  rw [List.all_eq_true]
  constructor
  · intro h i hi
    have h2 := h i (List.mem_range.mpr hi)
    dsimp only at h2
    rw [validate_body_count] at h2
    exact (eq_of_beq h2).symm
  · intro h index hindex
    rw [List.mem_range] at hindex
    have h2 := h index hindex
    dsimp only
    rw [validate_body_count, h2]
    simp

theorem phase1_balance (rule : Rule) (cell : Cell) (hstates : 1 ≤ rule.states)
    (hage : cell.value ≤ rule.states) :
    ((if (phase1Cell rule cell).value == rule.states then 1 else 0) : Nat)
        + (if deathPred rule cell then 1 else 0)
      = (if cell.value == rule.states then 1 else 0)
        + (if spawnPred rule cell then 1 else 0) := by
  by_cases h0 : cell.value = 0
  · have hd : cell.is_dead = true := by simp [Cell.is_dead, h0]
    have hnd : deathPred rule cell = false := by simp [deathPred, hd]
    have hold : (cell.value == rule.states) = false := by
      rw [beq_eq_decide_nat, h0]
      simp only [decide_eq_false_iff_not]
      omega
    by_cases hb : rule.birth_rule cell.neighbours
    · have hsp : spawnPred rule cell = true := by simp [spawnPred, hd, hb]
      have hnew : (phase1Cell rule cell).value = rule.states := by
        simp [phase1Cell, hd, hb]
      rw [hnew]
      simp [hnd, hold, hsp]
    · have hsp : spawnPred rule cell = false := by simp [spawnPred, hb]
      have hnew : (phase1Cell rule cell).value = cell.value := by
        simp [phase1Cell, hd, hb]
      rw [hnew]
      simp [hnd, hold, hsp]
  · have hd : cell.is_dead = false := by simp [Cell.is_dead, h0]
    have hsp : spawnPred rule cell = false := by simp [spawnPred, hd]
    by_cases hv : cell.value = rule.states
    · by_cases hs : rule.survival_rule cell.neighbours
      · have hnd : deathPred rule cell = false := by simp [deathPred, hs]
        have hnew : (phase1Cell rule cell).value = cell.value := by
          simp [phase1Cell, hd, hs, hv]
        rw [hnew]
        simp [hnd, hsp]
      · have hnd : deathPred rule cell = true := by
          simp [deathPred, hd, hv, hs]
        have hnew : (phase1Cell rule cell).value = cell.value - 1 := by
          simp [phase1Cell, hd, hs]
        have hne : (cell.value - 1 == rule.states) = false := by
          rw [beq_eq_decide_nat]
          simp only [decide_eq_false_iff_not]
          omega
        rw [hnew]
        simp [hnd, hsp, hne, hv]
        omega
    · have hlt : cell.value < rule.states := lt_of_le_of_ne hage hv
      have hnd : deathPred rule cell = false := by
        simp [deathPred, beq_eq_decide_nat, hv]
      have hnew : (phase1Cell rule cell).value = cell.value - 1 := by
        simp [phase1Cell, hd, hlt]
      have h1 : (cell.value - 1 == rule.states) = false := by
        rw [beq_eq_decide_nat]
        simp only [decide_eq_false_iff_not]
        omega
      have h2 : (cell.value == rule.states) = false := by
        rw [beq_eq_decide_nat]
        simp only [decide_eq_false_iff_not]
        exact hv
      rw [hnew]
      simp [hnd, hsp, h1, h2]

theorem countP_balance {α : Type} (p q p' q' : α → Bool) (l : List α)
    (h : ∀ a ∈ l, ((if p a then 1 else 0) : Nat) + (if q a then 1 else 0)
        = (if p' a then 1 else 0) + (if q' a then 1 else 0)) :
    l.countP p + l.countP q = l.countP p' + l.countP q' := by
  induction l with
  | nil => simp
  | cons a l ih =>
    have hh := h a (List.mem_cons_self a l)
    have ihh := ih (fun b hb => h b (List.mem_cons_of_mem a hb))
    rw [List.countP_cons, List.countP_cons, List.countP_cons, List.countP_cons]
    by_cases hp : p a <;> by_cases hq : q a <;> by_cases hp' : p' a <;> by_cases hq' : q' a
      <;> simp_all <;> omega

theorem IVec3.neg_neg (a : IVec3) : - -a = a := by
  cases a
  simp [IVec3.neg_def]

theorem countP_gtgt_flip (cs R : Nat) (hcs : 0 < cs) (hR : 0 < R) (rule : Rule)
    (hsym : OffsetsSymm rule) {i j : Nat}
    (hi : i < R * R * R * CHUNK_CELL_COUNT cs) (hj : j < R * R * R * CHUNK_CELL_COUNT cs) :
    rule.neighbour_offsets.countP (fun d => decide (gtgt cs R j d = i))
      = rule.neighbour_offsets.countP (fun d => decide (gtgt cs R i d = j)) := by
  have h1 : rule.neighbour_offsets.countP (fun d => decide (gtgt cs R j d = i))
      = (rule.neighbour_offsets.map Neg.neg).countP (fun d => decide (gtgt cs R j d = i)) :=
    (hsym.countP_eq _).symm
  rw [h1, List.countP_map]
  refine List.countP_congr (fun d _ => ?_)
  simp only [Function.comp, decide_eq_true_eq]
  have hsymm := gtgt_symm cs R hcs hR hj hi (-d)
  rw [IVec3.neg_neg] at hsymm
  exact hsymm

theorem record_contrib_eq_cnt (cs R : Nat) (rule : Rule) {cc o' : Nat}
    (hcc : cc < R * R * R) (ho' : o' < CHUNK_CELL_COUNT cs) (hsmall : OffsetsSmall rule)
    (i : Nat) (b : Bool) :
    record_contrib cs R rule (cc, o', b) (index_to_chunk_index cs i)
        (index_to_chunk_offset cs i)
      = (if b then 1 else 255) * rule.neighbour_offsets.countP
          (fun d => decide (gtgt cs R (cc * CHUNK_CELL_COUNT cs + o') d = i)) := by
  unfold record_contrib
  congr 1
  rw [nb_targets_eq_ref cs R rule hcc ho' hsmall b]
  unfold ref_targets
  dsimp only
  rw [List.count_eq_countP, List.countP_map]
  refine List.countP_congr (fun d _ => ?_)
  simp only [Function.comp]
  have hpairbeq : ∀ (a b c e : Nat),
      (((a, b) : Nat × Nat) == (c, e)) = (decide (a = c) && decide (b = e)) := by
    intro a b c e
    show ((a == c) && (b == e)) = _
    rw [beq_eq_decide_nat, beq_eq_decide_nat]
  rw [hpairbeq]
  by_cases h : gtgt cs R (cc * CHUNK_CELL_COUNT cs + o') d = i
  · simp [h]
  · simp only [h, decide_False]
    by_cases h1 : index_to_chunk_index cs (gtgt cs R (cc * CHUNK_CELL_COUNT cs + o') d)
        = index_to_chunk_index cs i
    · by_cases h2 : index_to_chunk_offset cs (gtgt cs R (cc * CHUNK_CELL_COUNT cs + o') d)
          = index_to_chunk_offset cs i
      · exact absurd (chunk_offset_pair_eq cs _ _ h1 h2) h
      · simp [h2]
    · simp [h1]

theorem gen_records_contrib (cs : Nat) (rule : Rule) (s : Chunks) (hcs : 0 < cs)
    (hsmall : OffsetsSmall rule) (i : Nat) :
    ((gen_records cs rule s).map
        (fun r => record_contrib cs s.chunk_radius rule r
          (index_to_chunk_index cs i) (index_to_chunk_offset cs i))).sum
      = ((spawn_list cs rule s).map (fun j => rule.neighbour_offsets.countP
            (fun d => decide (gtgt cs s.chunk_radius j d = i)))).sum
        + 255 * ((death_list cs rule s).map (fun j => rule.neighbour_offsets.countP
            (fun d => decide (gtgt cs s.chunk_radius j d = i)))).sum := by
  have hccc : 0 < CHUNK_CELL_COUNT cs := Nat.mul_pos (Nat.mul_pos hcs hcs) hcs
  unfold gen_records
  rw [sum_map_flatMap]
  -- rewrite each chunk's contribution
  have hchunk : ∀ cc ∈ List.range s.chunk_count,
      ((((LeddooAtomic.update_values cs rule (s.chunks cc)).2.1.map fun o => (cc, o, true)) ++
        ((LeddooAtomic.update_values cs rule (s.chunks cc)).2.2.map fun o => (cc, o, false))).map
          (fun r => record_contrib cs s.chunk_radius rule r
            (index_to_chunk_index cs i) (index_to_chunk_offset cs i))).sum
      = (((List.range (CHUNK_CELL_COUNT cs)).filter
            (fun o => spawnPred rule (s.chunks cc o))).map
          (fun o => rule.neighbour_offsets.countP
            (fun d => decide (gtgt cs s.chunk_radius (cc * CHUNK_CELL_COUNT cs + o) d = i)))).sum
        + 255 * (((List.range (CHUNK_CELL_COUNT cs)).filter
            (fun o => deathPred rule (s.chunks cc o))).map
          (fun o => rule.neighbour_offsets.countP
            (fun d => decide (gtgt cs s.chunk_radius (cc * CHUNK_CELL_COUNT cs + o) d
              = i)))).sum := by
    intro cc hcc
    rw [List.mem_range] at hcc
    have hcc3 : cc < s.chunk_radius * s.chunk_radius * s.chunk_radius := hcc
    rw [List.map_append, List.sum_append, List.map_map, List.map_map,
      update_values_spawns, update_values_deaths]
    congr 1
    · refine congrArg List.sum (List.map_congr_left (fun o ho => ?_))
      rw [List.mem_filter, List.mem_range] at ho
      simp only [Function.comp]
      rw [record_contrib_eq_cnt cs _ rule hcc3 ho.1 hsmall i true]
      simp
    · rw [show (((List.range (CHUNK_CELL_COUNT cs)).filter
          (fun o => deathPred rule (s.chunks cc o))).map
            ((fun r => record_contrib cs s.chunk_radius rule r
              (index_to_chunk_index cs i) (index_to_chunk_offset cs i))
              ∘ (fun o => (cc, o, false)))).sum
        = (((List.range (CHUNK_CELL_COUNT cs)).filter
            (fun o => deathPred rule (s.chunks cc o))).map
          (fun o => 255 * rule.neighbour_offsets.countP
            (fun d => decide (gtgt cs s.chunk_radius (cc * CHUNK_CELL_COUNT cs + o) d
              = i)))).sum from
        congrArg List.sum (List.map_congr_left (fun o ho => by
          rw [List.mem_filter, List.mem_range] at ho
          simp only [Function.comp]
          exact record_contrib_eq_cnt cs _ rule hcc3 ho.1 hsmall i false))]
      exact List.sum_map_mul_left _ _ _
  rw [List.map_congr_left hchunk, List.sum_map_add]
  congr 1
  · unfold spawn_list
    rw [← flatMap_filter_range s.chunk_count (CHUNK_CELL_COUNT cs)
      (fun cc o => spawnPred rule (s.chunks cc o)), sum_map_flatMap]
    refine congrArg List.sum (List.map_congr_left (fun cc _ => ?_))
    rw [List.map_map]
    rfl
  · rw [List.sum_map_mul_left]
    congr 1
    unfold death_list
    rw [← flatMap_filter_range s.chunk_count (CHUNK_CELL_COUNT cs)
      (fun cc o => deathPred rule (s.chunks cc o)), sum_map_flatMap]
    refine congrArg List.sum (List.map_congr_left (fun cc _ => ?_))
    rw [List.map_map]
    rfl

theorem valid_cleared (cs : Nat) (rule : Rule) (R : Nat) (hstates : 1 ≤ rule.states) :
    Valid cs rule ⟨R, fun _ _ => default⟩ := by
  intro i _
  show (0 : Nat) = trueCount cs rule _ i
  unfold trueCount
  rw [eq_comm, List.countP_eq_zero]
  intro d _
  simp only [beq_eq_decide_nat, decide_eq_true_eq]
  show ¬((0 : Nat) = rule.states)
  omega

theorem phase12_valid (cs : Nat) (rule : Rule) (s : Chunks) (hcs : 0 < cs)
    (hstates : 1 ≤ rule.states) (hlen : rule.neighbour_offsets.length ≤ 255)
    (hsym : OffsetsSymm rule) (hsmall : OffsetsSmall rule)
    (hage : AgeOk rule s) (hvalid : Valid cs rule s) :
    Valid cs rule
      { chunk_radius := s.chunk_radius,
        chunks := (gen_records cs rule s).foldl (apply_record cs s.chunk_radius rule)
          (fun c o => (LeddooAtomic.update_values cs rule (s.chunks c)).1 o) } := by
  intro i hi
  have hccc : 0 < CHUNK_CELL_COUNT cs := Nat.mul_pos (Nat.mul_pos hcs hcs) hcs
  have hiN : i < s.chunk_radius * s.chunk_radius * s.chunk_radius * CHUNK_CELL_COUNT cs := hi
  have hR : 0 < s.chunk_radius := by
    rcases Nat.eq_zero_or_pos s.chunk_radius with h | h
    · rw [h] at hiN
      simp at hiN
    · exact h
  have hbase : ∀ j : Nat,
      (LeddooAtomic.update_values cs rule (s.chunks (index_to_chunk_index cs j))).1
        (index_to_chunk_offset cs j)
      = phase1Cell rule (s.chunks (index_to_chunk_index cs j) (index_to_chunk_offset cs j)) := by
    intro j
    have hoj : index_to_chunk_offset cs j < CHUNK_CELL_COUNT cs := by
      unfold index_to_chunk_offset
      exact Nat.mod_lt _ hccc
    rw [update_values_cells]
    rw [if_pos hoj]
  have hval : ∀ j : Nat,
      (((gen_records cs rule s).foldl (apply_record cs s.chunk_radius rule)
          (fun c o => (LeddooAtomic.update_values cs rule (s.chunks c)).1 o))
        (index_to_chunk_index cs j) (index_to_chunk_offset cs j)).value
      = (phase1Cell rule (s.chunks (index_to_chunk_index cs j)
          (index_to_chunk_offset cs j))).value := by
    intro j
    rw [foldl_records_value]
    show ((LeddooAtomic.update_values cs rule (s.chunks (index_to_chunk_index cs j))).1
      (index_to_chunk_offset cs j)).value = _
    rw [hbase j]
  have hvalid_i : (s.chunks (index_to_chunk_index cs i)
      (index_to_chunk_offset cs i)).neighbours = trueCount cs rule s i := hvalid i hi
  have hbase_counter :
      ((fun c o => (LeddooAtomic.update_values cs rule (s.chunks c)).1 o)
        (index_to_chunk_index cs i) (index_to_chunk_offset cs i)).neighbours
      = trueCount cs rule s i := by
    show ((LeddooAtomic.update_values cs rule (s.chunks (index_to_chunk_index cs i))).1
      (index_to_chunk_offset cs i)).neighbours = _
    rw [hbase i, phase1Cell_neighbours]
    exact hvalid_i
  have htc_le : trueCount cs rule s i ≤ 255 := by
    unfold trueCount
    exact le_trans (List.countP_le_length _) hlen
  have hformula := foldl_records_neighbours cs s.chunk_radius rule (gen_records cs rule s)
    (fun c o => (LeddooAtomic.update_values cs rule (s.chunks c)).1 o)
    (index_to_chunk_index cs i) (index_to_chunk_offset cs i)
    (by rw [hbase_counter]; omega)
  rw [hbase_counter, gen_records_contrib cs rule s hcs hsmall i] at hformula
  have hS_nodup : (spawn_list cs rule s).Nodup := (List.nodup_range _).filter _
  have hD_nodup : (death_list cs rule s).Nodup := (List.nodup_range _).filter _
  have hS_mem : ∀ j, j ∈ spawn_list cs rule s ↔
      (j < s.chunk_radius * s.chunk_radius * s.chunk_radius * CHUNK_CELL_COUNT cs ∧
        spawnPred rule (s.chunks (index_to_chunk_index cs j)
          (index_to_chunk_offset cs j)) = true) := by
    intro j
    unfold spawn_list
    rw [List.mem_filter, List.mem_range]
    exact Iff.rfl
  have hD_mem : ∀ j, j ∈ death_list cs rule s ↔
      (j < s.chunk_radius * s.chunk_radius * s.chunk_radius * CHUNK_CELL_COUNT cs ∧
        deathPred rule (s.chunks (index_to_chunk_index cs j)
          (index_to_chunk_offset cs j)) = true) := by
    intro j
    unfold death_list
    rw [List.mem_filter, List.mem_range]
    exact Iff.rfl
  have hflipS : ((spawn_list cs rule s).map (fun j => rule.neighbour_offsets.countP
        (fun d => decide (gtgt cs s.chunk_radius j d = i)))).sum
      = rule.neighbour_offsets.countP
          (fun d => decide (gtgt cs s.chunk_radius i d ∈ spawn_list cs rule s)) := by
    rw [List.map_congr_left (fun j hj =>
      countP_gtgt_flip cs s.chunk_radius hcs hR rule hsym hiN ((hS_mem j).mp hj).1)]
    exact sum_countP_mem _ hS_nodup _ _
  have hflipD : ((death_list cs rule s).map (fun j => rule.neighbour_offsets.countP
        (fun d => decide (gtgt cs s.chunk_radius j d = i)))).sum
      = rule.neighbour_offsets.countP
          (fun d => decide (gtgt cs s.chunk_radius i d ∈ death_list cs rule s)) := by
    rw [List.map_congr_left (fun j hj =>
      countP_gtgt_flip cs s.chunk_radius hcs hR rule hsym hiN ((hD_mem j).mp hj).1)]
    exact sum_countP_mem _ hD_nodup _ _
  rw [hflipS, hflipD] at hformula
  have hnew_pred : trueCount cs rule
      { chunk_radius := s.chunk_radius,
        chunks := (gen_records cs rule s).foldl (apply_record cs s.chunk_radius rule)
          (fun c o => (LeddooAtomic.update_values cs rule (s.chunks c)).1 o) } i
      = rule.neighbour_offsets.countP (fun d =>
          (phase1Cell rule (s.chunks
            (index_to_chunk_index cs (gtgt cs s.chunk_radius i d))
            (index_to_chunk_offset cs (gtgt cs s.chunk_radius i d)))).value
          == rule.states) := by
    unfold trueCount
    dsimp only
    refine congrArg (fun p => List.countP p rule.neighbour_offsets) ?_
    funext d
    rw [hval (gtgt cs s.chunk_radius i d)]
  have hDmem : ∀ d : IVec3, decide (gtgt cs s.chunk_radius i d ∈ death_list cs rule s)
      = deathPred rule (s.chunks
          (index_to_chunk_index cs (gtgt cs s.chunk_radius i d))
          (index_to_chunk_offset cs (gtgt cs s.chunk_radius i d))) := by
    intro d
    have hjN : gtgt cs s.chunk_radius i d
        < s.chunk_radius * s.chunk_radius * s.chunk_radius * CHUNK_CELL_COUNT cs :=
      gtgt_lt cs s.chunk_radius hcs hR i d
    cases hb : deathPred rule (s.chunks
        (index_to_chunk_index cs (gtgt cs s.chunk_radius i d))
        (index_to_chunk_offset cs (gtgt cs s.chunk_radius i d))) with
    | true => exact decide_eq_true ((hD_mem _).mpr ⟨hjN, hb⟩)
    | false =>
      refine decide_eq_false (fun hm => ?_)
      exact Bool.false_ne_true (hb ▸ ((hD_mem _).mp hm).2)
  have hSmem : ∀ d : IVec3, decide (gtgt cs s.chunk_radius i d ∈ spawn_list cs rule s)
      = spawnPred rule (s.chunks
          (index_to_chunk_index cs (gtgt cs s.chunk_radius i d))
          (index_to_chunk_offset cs (gtgt cs s.chunk_radius i d))) := by
    intro d
    have hjN : gtgt cs s.chunk_radius i d
        < s.chunk_radius * s.chunk_radius * s.chunk_radius * CHUNK_CELL_COUNT cs :=
      gtgt_lt cs s.chunk_radius hcs hR i d
    cases hb : spawnPred rule (s.chunks
        (index_to_chunk_index cs (gtgt cs s.chunk_radius i d))
        (index_to_chunk_offset cs (gtgt cs s.chunk_radius i d))) with
    | true => exact decide_eq_true ((hS_mem _).mpr ⟨hjN, hb⟩)
    | false =>
      refine decide_eq_false (fun hm => ?_)
      exact Bool.false_ne_true (hb ▸ ((hS_mem _).mp hm).2)
  have hbal : ∀ d ∈ rule.neighbour_offsets,
      ((if (phase1Cell rule (s.chunks
          (index_to_chunk_index cs (gtgt cs s.chunk_radius i d))
          (index_to_chunk_offset cs (gtgt cs s.chunk_radius i d)))).value == rule.states
        then 1 else 0) : Nat)
      + (if decide (gtgt cs s.chunk_radius i d ∈ death_list cs rule s) then 1 else 0)
      = (if (s.chunks (index_to_chunk_index cs (gtgt cs s.chunk_radius i d))
          (index_to_chunk_offset cs (gtgt cs s.chunk_radius i d))).value == rule.states
        then 1 else 0)
      + (if decide (gtgt cs s.chunk_radius i d ∈ spawn_list cs rule s) then 1 else 0) := by
    intro d _
    rw [hDmem d, hSmem d]
    exact phase1_balance rule _ hstates (hage _ _)
  have hbalance := countP_balance
    (fun d => (phase1Cell rule (s.chunks
        (index_to_chunk_index cs (gtgt cs s.chunk_radius i d))
        (index_to_chunk_offset cs (gtgt cs s.chunk_radius i d)))).value == rule.states)
    (fun d => decide (gtgt cs s.chunk_radius i d ∈ death_list cs rule s))
    (fun d => (s.chunks (index_to_chunk_index cs (gtgt cs s.chunk_radius i d))
        (index_to_chunk_offset cs (gtgt cs s.chunk_radius i d))).value == rule.states)
    (fun d => decide (gtgt cs s.chunk_radius i d ∈ spawn_list cs rule s))
    rule.neighbour_offsets hbal
  have htc_old : trueCount cs rule s i
      = rule.neighbour_offsets.countP
        (fun d => (s.chunks (index_to_chunk_index cs (gtgt cs s.chunk_radius i d))
          (index_to_chunk_offset cs (gtgt cs s.chunk_radius i d))).value == rule.states) := rfl
  have hnew_le : rule.neighbour_offsets.countP (fun d =>
      (phase1Cell rule (s.chunks
        (index_to_chunk_index cs (gtgt cs s.chunk_radius i d))
        (index_to_chunk_offset cs (gtgt cs s.chunk_radius i d)))).value
      == rule.states) ≤ 255 := le_trans (List.countP_le_length _) hlen
  rw [htc_old] at htc_le
  show (((gen_records cs rule s).foldl (apply_record cs s.chunk_radius rule)
      (fun c o => (LeddooAtomic.update_values cs rule (s.chunks c)).1 o))
        (index_to_chunk_index cs i) (index_to_chunk_offset cs i)).neighbours = _
  rw [hformula, hnew_pred, htc_old]
  omega

/-- C1: Neighbour-count invariant: on a grid that passes the `validate`
recomputation, one completed generation of `update` (Phase 1 then Phase 2, both
barriers crossed) again passes `validate` — every cell's maintained neighbour
counter equals the number of neighbour positions (one per rule offset, wrapped
toroidally into the domain) whose value equals `rule.states`.  Hypotheses: a
positive chunk edge, `states ≥ 1`, at most 255 neighbour offsets, a
negation-symmetric neighbourhood with per-axis magnitude at most 1, and all
cell ages in `[0, states]`. -/
theorem C1_neighbor_count_invariant (cs : Nat) (rule : Rule) (st : Chunks)
    (hcs : 0 < cs) (hstates : 1 ≤ rule.states)
    (hlen : rule.neighbour_offsets.length ≤ 255)
    (hsym : OffsetsSymm rule) (hsmall : OffsetsSmall rule)
    (hage : AgeOk rule st)
    (hvalid : LeddooAtomic.validate_ok cs rule st = true) :
    LeddooAtomic.validate_ok cs rule (LeddooAtomic.update cs rule st) = true := by
  rw [validate_ok_iff] at hvalid ⊢
  rw [update_eq_records]
  unfold update_records
  by_cases h : (rule.bounding_size + cs - 1) / cs = st.chunk_radius
  · rw [set_size_keep cs st rule.bounding_size h]
    exact phase12_valid cs rule st hcs hstates hlen hsym hsmall hage hvalid
  · rw [set_size_new cs st rule.bounding_size h]
    exact phase12_valid cs rule _ hcs hstates hlen hsym hsmall
      (fun _ _ => Nat.zero_le _) (valid_cleared cs rule _ hstates)

/-- Concrete instance of the C1 invariant: chunk edge 1, a one-chunk dead grid,
and a rule with `states = 1` and no neighbour offsets. -/
theorem C1_neighbor_count_invariant_witness :
    LeddooAtomic.validate_ok 1 ⟨1, 1, fun _ => false, fun _ => true, []⟩
      (LeddooAtomic.update 1 ⟨1, 1, fun _ => false, fun _ => true, []⟩
        ⟨1, fun _ _ => ⟨0, 0⟩⟩) = true :=
  C1_neighbor_count_invariant 1 ⟨1, 1, fun _ => false, fun _ => true, []⟩
    ⟨1, fun _ _ => ⟨0, 0⟩⟩ (by decide) (by decide) (by decide)
    List.Perm.nil (fun d hd => absurd hd (List.not_mem_nil d))
    (fun _ _ => Nat.zero_le _) (by decide)
